import Mathlib

/-!
# relog: line classification and field extraction

A shallow embedding of `main.go` of `jilleJr/relog`.

Conventions of the embedding.

* Go `string` and `[]byte` values are Lean `String`s (valid UTF-8 text); Go's
  `len` is the byte length `String.utf8ByteSize`.
* Go `int` is `Int`; no operation of the program can overflow it.
* The receiver `*Relogger`, the package variable `parsedTime` and the zerolog
  sink are threaded explicitly through a `State`: a completed
  `log.WithLevel(level)....Msg(message)` call appends one `LogEvent` to
  `State.log` when `log.WithLevel` returns an event, and nothing when it
  returns nil (level `disabled`, or a level below the level of the logger).
  How the console writer renders an event is outside the model.
* The libraries the program calls (sonic, go-logfmt, zerolog, strconv.ParseFloat,
  time.Parse, strings.ToLower) are not part of the repository.  Their results
  are taken from an `Env`, so every general theorem holds for any behaviour
  of those libraries.  sonic's lazily parsed `ast.Node` is modelled by the
  fully parsed tree `Node`.
-/

namespace Relog

/-! ## Strings -/

/-- Go `len(s)`: the number of bytes of `s`. -/
def len (s : String) : Nat := s.utf8ByteSize

/-- Go `strings.Repeat(s, count)` for a non-negative count. -/
def stringsRepeat (s : String) : Nat → String
  | 0 => ""
  | n + 1 => s ++ stringsRepeat s n

/-- Go `strings.ReplaceAll(s, "\n", "\n\t")`: the pattern is a single
character, so the replacement acts character by character. -/
def replaceNewlines (s : String) : String :=
  String.mk (s.data.flatMap fun c => if c = '\n' then ['\n', '\t'] else [c])

/-- Strip the prefix `p` from `s`, both as character lists. -/
def stripPrefixChars : List Char → List Char → Option (List Char)
  | [], s => some s
  | _ :: _, [] => none
  | p :: ps, c :: cs => if p = c then stripPrefixChars ps cs else none

/-- The class `\d` of Go regular expressions: an ASCII digit. -/
def isDigitChar (c : Char) : Bool := decide ('0' ≤ c) && decide (c ≤ '9')

/-- Source `isSonicEOFErr`: whether the error message matches the regular
expression `^"Syntax error at index \d+: eof` (the pattern starts with a
double quote). -/
def isSonicEOFErr (err : String) : Bool :=
  match stripPrefixChars "\"Syntax error at index ".data err.data with
  | none => false
  | some rest =>
    let digits := rest.takeWhile isDigitChar
    let tail := rest.dropWhile isDigitChar
    !digits.isEmpty && (stripPrefixChars ": eof".data tail).isSome

/-! ## Time and levels -/

/-- A `time.Time` instant: seconds and nanoseconds since the Unix epoch.  The
location of a `time.Time` only matters for rendering and is not modelled. -/
structure Time where
  sec : Int
  nsec : Int
  deriving DecidableEq, Repr

/-- Go `time.Time{}`, the zero instant (January 1, year 1, 00:00 UTC). -/
def Time.zero : Time := ⟨-62135596800, 0⟩

/-- Go `time.Unix(sec, 0)`. -/
def timeUnix (sec : Int) : Time := ⟨sec, 0⟩

/-- A `zerolog.Level`, an `int8`. -/
abbrev Level := Int

def DebugLevel : Level := 0
def InfoLevel : Level := 1
def WarnLevel : Level := 2
def ErrorLevel : Level := 3
def FatalLevel : Level := 4
def PanicLevel : Level := 5
def NoLevel : Level := 6
def Disabled : Level := 7
def TraceLevel : Level := -1

/-- The layouts of `time.Parse` the program uses. -/
inductive Layout
  | RFC3339
  | RFC3339Nano
  deriving DecidableEq, Repr

/-- Source `knownTimestampLayouts`. -/
def knownTimestampLayouts : List Layout := [Layout.RFC3339, Layout.RFC3339Nano]

/-! ## JSON nodes -/

/-- A parsed JSON value (`ast.Node`).  A number keeps its literal text, an
object keeps its members in document order (duplicate keys included). -/
inductive Node
  | null
  | true
  | false
  | number (lit : String)
  | str (s : String)
  | array (xs : List Node)
  | object (ms : List (String × Node))

/-- A float64, represented by its IEEE-754 bit pattern. -/
structure Float64 where
  bits : Nat
  deriving DecidableEq, Repr

/-- A key/value pair of a logfmt record (source `Pair`). -/
structure Pair where
  Key : String
  Value : String
  deriving DecidableEq, Repr

/-- The library functions the program calls. -/
structure Env where
  /-- The function `sonic.Get(b)`: the root node, or the text of the error. -/
  sonicGet : String → Except String Node
  /-- The method `Int64()` of a number node with the given literal: the value
  and whether the error is nil. -/
  nodeInt64 : String → Int × Bool
  /-- The go-logfmt decoder on one line: `none` when `ScanRecord` returns
  false, else the pairs `ScanKeyval` yields until it returns false. -/
  logfmtDecode : String → Option (List Pair)
  /-- The function `strconv.ParseFloat(s, 64)` when its error is nil. -/
  parseFloat : String → Option Float64
  /-- The function `time.Parse(layout, s)` when its error is nil. -/
  timeParse : Layout → String → Option Time
  /-- The function `strings.ToLower`. -/
  stringsToLower : String → String
  /-- The function `zerolog.ParseLevel` when its error is nil. -/
  zerologParseLevel : String → Option Level

/-! ## Library functions with a fixed meaning -/

/-- The value of a non-empty run of ASCII digits. -/
def parseDigits (cs : List Char) : Option Nat :=
  if cs.isEmpty then none
  else cs.foldl
    (fun acc c => acc.bind fun n =>
      if isDigitChar c then some (10 * n + (c.toNat - 48)) else none)
    (some 0)

/-- Go `strconv.ParseInt(s, 10, 64)` when its error is nil: an optional sign,
then decimal digits, the value within the range of int64. -/
def strconvParseInt (s : String) : Option Int :=
  match s.data with
  | [] => none
  | '+' :: cs => (parseDigits cs).bind fun n => if n < 2 ^ 63 then some (n : Int) else none
  | '-' :: cs => (parseDigits cs).bind fun n => if n ≤ 2 ^ 63 then some (-(n : Int)) else none
  | cs => (parseDigits cs).bind fun n => if n < 2 ^ 63 then some (n : Int) else none

/-- The values of `ast.Node.Type()`. -/
inductive ValueType
  | V_NULL
  | V_TRUE
  | V_FALSE
  | V_ARRAY
  | V_OBJECT
  | V_STRING
  | V_NUMBER
  deriving DecidableEq, Repr

/-- The method `node.Type()`. -/
def nodeType : Node → ValueType
  | .null => .V_NULL
  | .true => .V_TRUE
  | .false => .V_FALSE
  | .number _ => .V_NUMBER
  | .str _ => .V_STRING
  | .array _ => .V_ARRAY
  | .object _ => .V_OBJECT

/-- The method `node.String()` when its error is nil: sonic casts null, the
booleans, numbers (their literal) and strings, and fails on arrays and
objects (then the returned string is empty). -/
def nodeString : Node → Option String
  | .null => some ""
  | .true => some "true"
  | .false => some "false"
  | .number lit => some lit
  | .str s => some s
  | .array _ => none
  | .object _ => none

/-- The members `node.ForEach` visits with a non-nil `path.Key`, in document
order: those of an object.  For an array or a scalar every callback of the
program sees `path.Key == nil` and does nothing. -/
def nodeMembers : Node → List (String × Node)
  | .object ms => ms
  | _ => []

/-- The first member with the given key. -/
def lookupKey (key : String) : List (String × Node) → Option Node
  | [] => none
  | (k, v) :: rest => if k = key then some v else lookupKey key rest

/-- The method `node.Get(key)`; `none` stands for a nil or invalid node. -/
def nodeGet (node : Node) (key : String) : Option Node :=
  lookupKey key (nodeMembers node)

/-- The method `node.GetByPath(k1, k2)` for two string keys. -/
def nodeGetByPath (node : Node) (k1 k2 : String) : Option Node :=
  (nodeGet node k1).bind fun n => nodeGet n k2

/-! ## Events and program state -/

/-- A value attached to an event by `Interface`, `Bool`, `Int64`, `Float64`
or `Str`.  Arrays and objects are kept as their nodes. -/
inductive Value
  | null
  | bool (b : Bool)
  | int64 (i : Int)
  | float64 (f : Float64)
  | str (s : String)
  | array (xs : List Node)
  | object (ms : List (String × Node))

/-- One `log.WithLevel(level)....Msg(message)` call.  The timestamp is what
`zerolog.TimestampFunc` returns at that moment, the value of `parsedTime`. -/
structure LogEvent where
  timestamp : Time
  level : Level
  message : String
  fields : List (String × Value)

/-- Source `Relogger`, without the scanner. -/
structure Relogger where
  mongoCompWidth : Int
  mongoContextWidth : Int
  mongoIDWidth : Int
  buf : String

/-- The receiver, the package variable `parsedTime` and the events sent to the
logger so far, oldest first. -/
structure State where
  r : Relogger
  parsedTime : Time
  log : List LogEvent

/-- Source `loggerSetup`, line 380: the level of the logger. -/
def loggerLevel : Level := TraceLevel

/-- Whether `log.WithLevel(level)` returns an event rather than nil: zerolog
returns nil for `Disabled` and for a level below the level of the logger (the
global level keeps its default, trace). -/
def withLevelEnabled (level : Level) : Bool :=
  level != Disabled && decide (loggerLevel ≤ level)

/-- What the logger receives of an event built by
`log.WithLevel(level)....Msg(message)`: the event, or nothing when
`log.WithLevel` returned nil. -/
def logged (ev : LogEvent) : List LogEvent :=
  if withLevelEnabled ev.level then [ev] else []

/-- The calls `ev := log.WithLevel(level)`, the field calls and
`ev.Msg(message)`. -/
def State.emit (s : State) (level : Level) (fields : List (String × Value))
    (message : String) : State :=
  { s with log := s.log ++ logged ⟨s.parsedTime, level, message, fields⟩ }

/-! ## The helpers of `main.go` -/

/-- Source `padString`. -/
def padString (prevMax : Int) (str : String) : Int × String :=
  if (len str : Int) = prevMax then (prevMax, str)
  else if (len str : Int) > prevMax then ((len str : Int), str)
  else (prevMax, str ++ stringsRepeat " " (prevMax - (len str : Int)).toNat)

/-- The inner loop of `findWithAnyName`: the first of `names` equal to `key`. -/
def matchName (key : String) : List String → Option String
  | [] => none
  | n :: rest => if key = n then some n else matchName key rest

/-- The scan of `findWithAnyName` over the members of an object. -/
def findMember (names : List String) : List (String × Node) → String × Option Node
  | [] => ("", none)
  | (key, child) :: rest =>
    match matchName key names with
    | some n => (n, some child)
    | none => findMember names rest

/-- Source `findWithAnyName`.  On an array or a scalar the callback stops at
once on `path.Key == nil`. -/
def findWithAnyName (node : Node) (names : List String) : String × Option Node :=
  findMember names (nodeMembers node)

/-- Source `parseLevel`. -/
def parseLevel (env : Env) (levelStr : String) : Level :=
  match env.zerologParseLevel (env.stringsToLower levelStr) with
  | some level => level
  | none => NoLevel

/-- Source `parseMongoDBLevel`. -/
def parseMongoDBLevel (levelStr : String) : Level × Bool :=
  if levelStr = "F" then (FatalLevel, true)
  else if levelStr = "E" then (ErrorLevel, true)
  else if levelStr = "W" then (WarnLevel, true)
  else if levelStr = "I" then (InfoLevel, true)
  else if levelStr = "D1" then (DebugLevel, true)
  else if levelStr = "D2" ∨ levelStr = "D3" ∨ levelStr = "D4" ∨ levelStr = "D5" then
    (TraceLevel, true)
  else (NoLevel, false)

/-- The loop of `parseTime` over the layouts. -/
def parseTimeWith (env : Env) (str : String) : List Layout → Time × Bool
  | [] => (Time.zero, false)
  | layout :: rest =>
    match env.timeParse layout str with
    | some t => (t, true)
    | none => parseTimeWith env str rest

/-- Source `parseTime`. -/
def parseTime (env : Env) (str : String) : Time × Bool :=
  parseTimeWith env str knownTimestampLayouts

/-- Source `parseTimestampNode`.  On a number node the source returns
`time.Unix(i, 0), true` when `err != nil`, and falls through to
`time.Time{}, false` when `Int64()` succeeds. -/
def parseTimestampNode (env : Env) (node : Option Node) : Time × Bool :=
  match node with
  | none => (Time.zero, false)
  | some n =>
    if nodeType n = ValueType.V_NUMBER then
      match n with
      | .number lit =>
        if (env.nodeInt64 lit).2 = false then (timeUnix (env.nodeInt64 lit).1, true)
        else (Time.zero, false)
      | _ => (Time.zero, false)
    else
      match nodeString n with
      | some timestampStr => parseTime env timestampStr
      | none => (Time.zero, false)

/-! ## `processLineJson` -/

/-- Lines 92-111 of `processLineJson`: the level, whether the record uses the
MongoDB convention, and the keys to ignore. -/
def resolveLevel (env : Env) (root : Node) : Level × Bool × List String :=
  match findWithAnyName root ["level", "lvl", "severity"] with
  | (levelNodeName, some levelNode) =>
    match nodeString levelNode with
    | some levelStr => (parseLevel env levelStr, false, [levelNodeName])
    | none => (NoLevel, false, [])
  | (_, none) =>
    match findWithAnyName root ["s"] with
    | (levelNodeName, some levelNode) =>
      match nodeString levelNode with
      | some levelStr =>
        if (parseMongoDBLevel levelStr).2 then
          ((parseMongoDBLevel levelStr).1, true, [levelNodeName])
        else (NoLevel, false, [])
      | none => (NoLevel, false, [])
    | (_, none) => (NoLevel, false, [])

/-- The result of lines 113-138 of `processLineJson`. -/
structure MessageResult where
  r : Relogger
  message : String
  isMongoDBLogging : Bool
  ignoreNodes : List String

/-- Lines 119-136 of `processLineJson`: the MongoDB message with its padded
`[component|context|id]` head, or MongoDB mode switched off. -/
def mongoMessage (r : Relogger) (root : Node) (message : String)
    (ignoreNodes : List String) : MessageResult :=
  match (findWithAnyName root ["c"]).2, (findWithAnyName root ["ctx"]).2,
      (findWithAnyName root ["id"]).2 with
  | some componentNode, some contextNode, some idNode =>
    let comp := padString r.mongoCompWidth ((nodeString componentNode).getD "")
    let context := padString r.mongoContextWidth ((nodeString contextNode).getD "")
    let id := padString r.mongoIDWidth ((nodeString idNode).getD "")
    { r := { r with mongoCompWidth := comp.1, mongoContextWidth := context.1,
                    mongoIDWidth := id.1 }
      message := "[" ++ comp.2 ++ "|" ++ context.2 ++ "|" ++ id.2 ++ "] " ++ message
      isMongoDBLogging := Bool.true
      ignoreNodes := ignoreNodes }
  | _, _, _ =>
    { r := r, message := message, isMongoDBLogging := Bool.false,
      ignoreNodes := ignoreNodes }

/-- Lines 113-138 of `processLineJson`. -/
def resolveMessage (r : Relogger) (root : Node) (isMongoDBLogging : Bool)
    (ignoreNodes : List String) : MessageResult :=
  match findWithAnyName root ["message", "msg"] with
  | (messageNodeName, some messageNode) =>
    match nodeString messageNode with
    | some messageStr =>
      if isMongoDBLogging then
        mongoMessage r root messageStr (ignoreNodes ++ [messageNodeName])
      else
        { r := r, message := messageStr, isMongoDBLogging := Bool.false,
          ignoreNodes := ignoreNodes ++ [messageNodeName] }
    | none =>
      { r := r, message := "", isMongoDBLogging := isMongoDBLogging,
        ignoreNodes := ignoreNodes }
  | (_, none) =>
    { r := r, message := "", isMongoDBLogging := isMongoDBLogging,
      ignoreNodes := ignoreNodes }

/-- Lines 140-149 of `processLineJson`: the new value of `parsedTime` and of
`ignoreNodes`. -/
def resolveTimestamp (env : Env) (root : Node) (isMongoDBLogging : Bool)
    (parsedTime : Time) (ignoreNodes : List String) : Time × List String :=
  let found := findWithAnyName root ["time", "timestamp", "@timestamp", "ts", "datetime"]
  if (parseTimestampNode env found.2).2 then
    ((parseTimestampNode env found.2).1, ignoreNodes ++ [found.1])
  else if isMongoDBLogging then
    if (parseTimestampNode env (nodeGetByPath root "t" "$date")).2 then
      ((parseTimestampNode env (nodeGetByPath root "t" "$date")).1, ignoreNodes)
    else (parsedTime, ignoreNodes)
  else (parsedTime, ignoreNodes)

/-- Lines 151-156 of `processLineJson`: the node the remaining steps use. -/
def unwrapAttr (root : Node) (isMongoDBLogging : Bool) : Node :=
  if isMongoDBLogging then
    match nodeGet root "attr" with
    | some attrNode => attrNode
    | none => root
  else root

/-- The text the loop of lines 164-168 builds from the children of an array. -/
def joinStacktrace : List Node → String
  | [] => ""
  | child :: rest => (nodeString child).getD "" ++ "\n\t" ++ joinStacktrace rest

/-- Lines 158-175 of `processLineJson`: the message and `ignoreNodes` after the
stacktrace is folded in. -/
def resolveStacktrace (root : Node) (message : String) (ignoreNodes : List String) :
    String × List String :=
  match findWithAnyName root ["stacktrace", "stack_trace", "stack"] with
  | (stacktraceNodeName, some stacktraceNode) =>
    match stacktraceNode with
    | .array children =>
      (message ++ "\n\tSTACKTRACE\n\t==========\n\t" ++ joinStacktrace children,
        ignoreNodes ++ [stacktraceNodeName])
    | other =>
      (message ++ "\n\tSTACKTRACE\n\t==========\n\t"
          ++ replaceNewlines ((nodeString other).getD ""),
        ignoreNodes ++ [stacktraceNodeName])
  | (_, none) => (message, ignoreNodes)

/-- The switch of lines 187-212: the field added for one member. -/
def fieldValue (env : Env) : Node → Value
  | .null => Value.null
  | .true => Value.bool Bool.true
  | .false => Value.bool Bool.false
  | .array xs => Value.array xs
  | .object ms => Value.object ms
  | .str s => Value.str s
  | .number lit =>
    match strconvParseInt lit with
    | some i => Value.int64 i
    | none =>
      match env.parseFloat lit with
      | some f => Value.float64 f
      | none => Value.str lit

/-- Lines 179-214 of `processLineJson`: the fields of the event. -/
def emitFields (env : Env) (ignoreNodes : List String) :
    List (String × Node) → List (String × Value)
  | [] => []
  | (key, node) :: rest =>
    if ignoreNodes.contains key then emitFields env ignoreNodes rest
    else (key, fieldValue env node) :: emitFields env ignoreNodes rest

/-- Lines 86-216 of `processLineJson`: the record is an object. -/
def processObject (env : Env) (s : State) (root : Node) : State :=
  let lv := resolveLevel env root
  let msg := resolveMessage s.r root lv.2.1 lv.2.2
  let ts := resolveTimestamp env root msg.isMongoDBLogging s.parsedTime msg.ignoreNodes
  let root2 := unwrapAttr root msg.isMongoDBLogging
  let st := resolveStacktrace root2 msg.message ts.2
  State.emit { s with r := msg.r, parsedTime := ts.1 } lv.1
    (emitFields env st.2 (nodeMembers root2)) st.1

/-- The event lines 177-215 of `processLineJson` build for the object `root`
(whether the logger receives it is decided by `logged`). -/
def objectEvent (env : Env) (s : State) (root : Node) : LogEvent :=
  let lv := resolveLevel env root
  let msg := resolveMessage s.r root lv.2.1 lv.2.2
  let ts := resolveTimestamp env root msg.isMongoDBLogging s.parsedTime msg.ignoreNodes
  let root2 := unwrapAttr root msg.isMongoDBLogging
  let st := resolveStacktrace root2 msg.message ts.2
  ⟨ts.1, lv.1, st.1, emitFields env st.2 (nodeMembers root2)⟩

/-- The bytes `processLineJson` hands to `sonic.Get` (lines 67-70). -/
def jsonInput (s : State) (b : String) : String :=
  if len s.r.buf > 0 then s.r.buf ++ b else b

/-- Source `Relogger.processLineJson`. -/
def processLineJson (env : Env) (s : State) (b : String) : State × Bool :=
  let buf1 := if len s.r.buf > 0 then s.r.buf ++ b else s.r.buf
  match env.sonicGet (jsonInput s b) with
  | .error err =>
    if isSonicEOFErr err then
      ({ s with r := { s.r with
            buf := if len buf1 = 0 then buf1 ++ jsonInput s b else buf1 } }, Bool.true)
    else ({ s with r := { s.r with buf := "" } }, Bool.false)
  | .ok root =>
    if nodeType root ≠ ValueType.V_OBJECT then
      ({ s with r := { s.r with buf := "" } }, Bool.false)
    else (processObject env { s with r := { s.r with buf := "" } } root, Bool.true)

/-! ## `processLineLogFmt` -/

/-- The variables of the loop of lines 237-255 of `processLineLogFmt`. -/
structure LogFmtScan where
  timestamp : Time
  hasTimestamp : Bool
  level : Level
  hasLevel : Bool
  message : String
  hasMessage : Bool
  fields : List Pair

/-- One iteration of the loop of lines 237-255. -/
def scanPair (env : Env) (v : LogFmtScan) (pair : Pair) : LogFmtScan :=
  if !v.hasTimestamp && (pair.Key = "time" || pair.Key = "timestamp"
      || pair.Key = "@timestamp" || pair.Key = "ts" || pair.Key = "datetime") then
    if (parseTime env pair.Value).2 then
      { v with timestamp := (parseTime env pair.Value).1, hasTimestamp := Bool.true }
    else { v with fields := v.fields ++ [pair] }
  else if !v.hasLevel && (pair.Key = "level" || pair.Key = "lvl"
      || pair.Key = "severity") then
    { v with level := parseLevel env pair.Value, hasLevel := Bool.true }
  else if !v.hasMessage && (pair.Key = "message" || pair.Key = "msg") then
    { v with message := pair.Value, hasMessage := Bool.true }
  else { v with fields := v.fields ++ [pair] }

/-- The loop of lines 237-255 over the decoded pairs. -/
def scanPairs (env : Env) (pairs : List Pair) : LogFmtScan :=
  pairs.foldl (scanPair env)
    { timestamp := Time.zero, hasTimestamp := Bool.false, level := NoLevel,
      hasLevel := Bool.false, message := "", hasMessage := Bool.false, fields := [] }

/-- The chain of lines 263-273: the field added for one pair. -/
def coercePair (env : Env) (pair : Pair) : String × Value :=
  match strconvParseInt pair.Value with
  | some i => (pair.Key, Value.int64 i)
  | none =>
    match env.parseFloat pair.Value with
    | some f => (pair.Key, Value.float64 f)
    | none =>
      if pair.Value = "true" then (pair.Key, Value.bool Bool.true)
      else if pair.Value = "false" then (pair.Key, Value.bool Bool.false)
      else (pair.Key, Value.str pair.Value)

/-- Source `Relogger.processLineLogFmt`. -/
def processLineLogFmt (env : Env) (s : State) (b : String) : State × Bool :=
  match env.logfmtDecode b with
  | none => (s, Bool.false)
  | some pairs =>
    let v := scanPairs env pairs
    let s1 := { s with parsedTime := if v.hasTimestamp then v.timestamp else Time.zero }
    if v.fields.length = 0 && !v.hasMessage && !v.hasLevel && !v.hasTimestamp then
      (s1, Bool.false)
    else (State.emit s1 v.level (v.fields.map (coercePair env)) v.message, Bool.true)

/-- The event lines 256-278 of `processLineLogFmt` build from the decoded pairs
(whether the logger receives it is decided by `logged`). -/
def logfmtEvent (env : Env) (pairs : List Pair) : LogEvent :=
  let v := scanPairs env pairs
  ⟨if v.hasTimestamp then v.timestamp else Time.zero, v.level, v.message,
    v.fields.map (coercePair env)⟩

/-! ## `processLine` -/

/-- Source `Relogger.processLine`. -/
def processLine (env : Env) (s : State) (b : String) : State :=
  if (processLineJson env s b).2 then (processLineJson env s b).1
  else if (processLineLogFmt env (processLineJson env s b).1 b).2 then
    (processLineLogFmt env (processLineJson env s b).1 b).1
  else State.emit (processLineLogFmt env (processLineJson env s b).1 b).1 NoLevel [] b

/-- The loop of `RelogAll` over the lines the scanner yields. -/
def relogLines (env : Env) (s : State) (lines : List String) : State :=
  lines.foldl (processLine env) s

/-! ## Notions used in the statements -/

/-- Whether `sonic.Get` reports the input of the JSON stage as incomplete. -/
def jsonIncomplete (env : Env) (s : State) (b : String) : Bool :=
  match env.sonicGet (jsonInput s b) with
  | .error err => isSonicEOFErr err
  | .ok _ => Bool.false

/-- Each padding width of `r2` is at least that of `r1`. -/
def widthsLe (r1 r2 : Relogger) : Prop :=
  r1.mongoCompWidth ≤ r2.mongoCompWidth ∧ r1.mongoContextWidth ≤ r2.mongoContextWidth
    ∧ r1.mongoIDWidth ≤ r2.mongoIDWidth

/-- The line of the fallback example. -/
def plainLine : String := "plain text, not json, not kv"

/-- The pairs go-logfmt reads from `plainLine`: six keys without a value. -/
def sixBareKeys : List Pair :=
  [⟨"plain", ""⟩, ⟨"text,", ""⟩, ⟨"not", ""⟩, ⟨"json,", ""⟩, ⟨"not", ""⟩, ⟨"kv", ""⟩]

/-- The state of lines 86-138 of `processLineJson` on the object `root`: the
message, the MongoDB flag and the keys ignored so far. -/
def messageStep (env : Env) (r : Relogger) (root : Node) : MessageResult :=
  resolveMessage r root (resolveLevel env root).2.1 (resolveLevel env root).2.2

/-- The node the stacktrace search and the emission loop run on (the value of
`root` after line 156). -/
def emissionRoot (env : Env) (r : Relogger) (root : Node) : Node :=
  unwrapAttr root (messageStep env r root).isMongoDBLogging

/-- The aliases of the stacktrace. -/
def stacktraceNames : List String := ["stacktrace", "stack_trace", "stack"]

/-- The aliases of the timestamp. -/
def timestampNames : List String := ["time", "timestamp", "@timestamp", "ts", "datetime"]

/-- Whether the key is a timestamp alias (the test of line 239). -/
def isTimestampKey (k : String) : Bool :=
  k = "time" || k = "timestamp" || k = "@timestamp" || k = "ts" || k = "datetime"

/-- Whether the key is a level alias (the test of line 245). -/
def isLevelKey (k : String) : Bool := k = "level" || k = "lvl" || k = "severity"

/-- Whether the key is a message alias (the test of line 249). -/
def isMessageKey (k : String) : Bool := k = "message" || k = "msg"

/-- Whether the pair can be captured as the timestamp: its key is a timestamp
alias and its value parses. -/
def capturesTimestamp (env : Env) (p : Pair) : Bool :=
  isTimestampKey p.Key && (parseTime env p.Value).2

/-- The pairs left after removing the first pair that can be captured as the
timestamp, the first with a level alias and the first with a message alias. -/
def logfmtResidual (env : Env) (pairs : List Pair) : List Pair :=
  ((pairs.eraseP (capturesTimestamp env)).eraseP (fun p => isLevelKey p.Key)).eraseP
    (fun p => isMessageKey p.Key)

/-- Remove the first element satisfying `q` when `c` holds. -/
def eraseIf (c : Bool) (q : Pair → Bool) (l : List Pair) : List Pair :=
  if c then l.eraseP q else l

/-- The number of pairs accounted for by the loop variables: the residual
fields plus one for each captured canonical field. -/
def scanCount (v : LogFmtScan) : Nat :=
  v.fields.length + v.hasTimestamp.toNat + v.hasLevel.toNat + v.hasMessage.toNat

/-- The level of the event `processLine` builds for a line the JSON stage
does not buffer: the resolved level of a JSON object, else the level scanned
from a non-empty logfmt record, else none (the raw event). -/
def lineLevel (env : Env) (s : State) (b : String) : Level :=
  match env.sonicGet (jsonInput s b) with
  | .ok (.object ms) => (resolveLevel env (.object ms)).1
  | _ =>
    match env.logfmtDecode b with
    | some (p :: ps) => (scanPairs env (p :: ps)).level
    | _ => NoLevel

/-- Lines 60-63 of `processLine`: the logfmt stage, then the raw event. -/
def fallbackStages (env : Env) (s : State) (b : String) : State :=
  if (processLineLogFmt env s b).2 then (processLineLogFmt env s b).1
  else State.emit (processLineLogFmt env s b).1 NoLevel [] b

/-- The message key excluded at line 117: the matched alias, when its value
casts to a string. -/
def matchedMessageKey (root : Node) : List String :=
  match findWithAnyName root ["message", "msg"] with
  | (name, some node) => if (nodeString node).isSome then [name] else []
  | (_, none) => []

/-- The timestamp key excluded at line 143: the matched alias, when its value
is accepted by `parseTimestampNode`. -/
def matchedTimestampKey (env : Env) (root : Node) : List String :=
  if (parseTimestampNode env (findWithAnyName root timestampNames).2).2 then
    [(findWithAnyName root timestampNames).1]
  else []

/-- The stacktrace key excluded at line 160: the alias matched in `node`. -/
def matchedStacktraceKey (node : Node) : List String :=
  match findWithAnyName node stacktraceNames with
  | (name, some _) => [name]
  | (_, none) => []

/-- The keys excluded from the emission loop (`ignoreNodes` at line 179). -/
def excludedKeys (env : Env) (r : Relogger) (root : Node) : List String :=
  (resolveLevel env root).2.2 ++ matchedMessageKey root ++ matchedTimestampKey env root
    ++ matchedStacktraceKey (emissionRoot env r root)

/-- The fields the emission loop makes of the members whose key is not
excluded, in document order. -/
def fieldsOf (env : Env) (excluded : List String) (members : List (String × Node)) :
    List (String × Value) :=
  (members.filter fun m => !excluded.contains m.1).map fun m => (m.1, fieldValue env m.2)

/-- The concatenation of the lines, with no separator. -/
def concatLines : List String → String
  | [] => ""
  | l :: ls => l ++ concatLines ls

/-! ## A reference environment

The general theorems below hold for every `Env`.  Concrete records are
evaluated in `refEnv`, which gives the libraries' results on the inputs the
examples use. -/

/-- Whether go-logfmt reads the byte as part of a key or of an unquoted value:
it is above the space and neither `=` nor a double quote. -/
def lfWordChar (c : Char) : Bool := decide (' ' < c) && c != '=' && c != '"'

/-- The quoted value of go-logfmt's `ScanKeyval` (label `qvalue`), scanned
after the opening quote: the raw text up to the closing quote, whether an
escape was seen, and the rest of the line; `none` when the quote is not
terminated. -/
def lfQuoted : List Char → Bool → Bool → List Char →
    Option (List Char × Bool × List Char)
  | [], _, _, _ => none
  | c :: cs, esc, hasEsc, acc =>
    if esc then lfQuoted cs Bool.false hasEsc (acc ++ [c])
    else if c = '\\' then lfQuoted cs Bool.true Bool.true (acc ++ [c])
    else if c = '"' then some (acc, hasEsc, cs)
    else lfQuoted cs Bool.false hasEsc (acc ++ [c])

/-- One call of go-logfmt's `Decoder.ScanKeyval` on the unread part of the
line: `none` when it returns false (end of the line or a syntax error, which
the program does not tell apart), else the pair and the new unread part.
`unquote` is the library's `unquoteBytes`, applied to quoted values that hold
an escape. -/
def lfScanKeyval (unquote : String → Option String) (line : List Char) :
    Option (Pair × List Char) :=
  match line.dropWhile (fun c => decide (c ≤ ' ')) with
  | [] => none
  | rest =>
    let key := rest.takeWhile lfWordChar
    let invalidKey := key.any (fun c => c = '\uFFFD')
    match rest.dropWhile lfWordChar with
    | [] => if invalidKey then none else some (⟨String.mk key, ""⟩, [])
    | '=' :: afterEq =>
      if key.isEmpty || invalidKey then none
      else
        match afterEq with
        | [] => some (⟨String.mk key, ""⟩, [])
        | '"' :: q =>
          match lfQuoted q Bool.false Bool.false [] with
          | none => none
          | some (raw, hasEsc, tail) =>
            if hasEsc then
              match unquote (String.mk ('"' :: raw ++ ['"'])) with
              | some v => some (⟨String.mk key, v⟩, tail)
              | none => none
            else some (⟨String.mk key, String.mk raw⟩, tail)
        | c :: cs =>
          if decide (c ≤ ' ') then some (⟨String.mk key, ""⟩, c :: cs)
          else
            let value := (c :: cs).takeWhile lfWordChar
            match (c :: cs).dropWhile lfWordChar with
            | [] => some (⟨String.mk key, String.mk value⟩, [])
            | d :: ds =>
              if d = '=' || d = '"' then none
              else some (⟨String.mk key, String.mk value⟩, d :: ds)
    | c :: cs =>
      if c = '"' || invalidKey then none
      else some (⟨String.mk key, ""⟩, c :: cs)

/-- The loop `for d.ScanKeyval()`: the pairs read until `ScanKeyval` returns
false.  Each successful call consumes at least one byte, which bounds the
number of iterations by the fuel. -/
def lfScanAll (unquote : String → Option String) : Nat → List Char → List Pair
  | 0, _ => []
  | fuel + 1, line =>
    match lfScanKeyval unquote line with
    | none => []
    | some (pair, rest) => pair :: lfScanAll unquote fuel rest

/-- The go-logfmt decoder on the bytes of one line, as `processLineLogFmt` uses
it: `ScanRecord` fails on empty input; otherwise the record is the text up to
the first newline, without a carriage return before it. -/
def goLogfmtDecode (unquote : String → Option String) (b : String) : Option (List Pair) :=
  if b.data.isEmpty then none
  else
    let line := b.data.takeWhile (fun c => c != '\n')
    let line := if line.getLast? = some '\r' then line.dropLast else line
    some (lfScanAll unquote (line.length + 1) line)

/-- The results of `sonic.Get` on the records of the examples; any other
non-empty input is reported as a syntax error at index 0, and the empty
input as incomplete. -/
def refSonicGet (b : String) : Except String Node :=
  if b = "123" then .ok (.number "123")
  else if b = "\x7b\"level\":\"warn\",\"lvl\":\"info\"\x7d" then
    .ok (.object [("level", .str "warn"), ("lvl", .str "info")])
  else if b = "\x7b\"lvl\":\"info\",\"level\":\"warn\"\x7d" then
    .ok (.object [("lvl", .str "info"), ("level", .str "warn")])
  else if b = "\x7b\"s\":\"I\",\"c\":\"NETWORK\",\"ctx\":\"conn1\",\"id\":\"12345\",\"msg\":\"hello\"\x7d" then
    .ok (.object [("s", .str "I"), ("c", .str "NETWORK"), ("ctx", .str "conn1"),
      ("id", .str "12345"), ("msg", .str "hello")])
  else if b = "\x7b\"s\":\"I\",\"c\":\"N\",\"ctx\":\"x\",\"id\":\"1\",\"msg\":\"hello\",\"stack\":\"boom\"\x7d" then
    .ok (.object [("s", .str "I"), ("c", .str "N"), ("ctx", .str "x"),
      ("id", .str "1"), ("msg", .str "hello"), ("stack", .str "boom")])
  else if b = "\x7b\"ts\":1700000000\x7d" then
    .ok (.object [("ts", .number "1700000000")])
  else if b = "\x7b\"msg\":" then .error "\"Syntax error at index 7: eof"
  else if b = "\x7b\"msg\":\"hi\"\x7d" then .ok (.object [("msg", .str "hi")])
  else if b = "\x7b\"msg\":\"m\",\"stack\":[\"a\",\"b\"]\x7d" then
    .ok (.object [("msg", .str "m"), ("stack", .array [.str "a", .str "b"])])
  else if b = "\x7b\"s\":\"I\",\"attr\":\x7b\"a\":1\x7d\x7d" then
    .ok (.object [("s", .str "I"), ("attr", .object [("a", .number "1")])])
  else if b = "\x7b\"s\":\"I\",\"msg\":\"hello\",\"attr\":\x7b\"a\":1\x7d\x7d" then
    .ok (.object [("s", .str "I"), ("msg", .str "hello"),
      ("attr", .object [("a", .number "1")])])
  else if b = "\x7b\"s\":\"I\",\"c\":\"N\",\"ctx\":\"x\",\"id\":\"1\",\"msg\":\"hello\",\"attr\":\x7b\"a\":1,\"msg\":\"inner\"\x7d\x7d" then
    .ok (.object [("s", .str "I"), ("c", .str "N"), ("ctx", .str "x"), ("id", .str "1"),
      ("msg", .str "hello"), ("attr", .object [("a", .number "1"), ("msg", .str "inner")])])
  else if b = "\x7b\"count\":42,\"ratio\":3.5\x7d" then
    .ok (.object [("count", .number "42"), ("ratio", .number "3.5")])
  else if b = "\x7b\"level\":" then .error "\"Syntax error at index 9: eof"
  else if b = "\x7b\"level\":\"disabled\"\x7d" then
    .ok (.object [("level", .str "disabled")])
  else if b = "\x7b\"level\":\"disabled\",\"msg\":\"m\"\x7d" then
    .ok (.object [("level", .str "disabled"), ("msg", .str "m")])
  else if b = "" then .error "\"Syntax error at index 0: eof"
  else .error "\"Syntax error at index 0: invalid char"

/-- The names `zerolog.ParseLevel` accepts, and the decimal numbers within int8
it takes as the level itself. -/
def refParseLevel (levelStr : String) : Option Level :=
  if levelStr = "trace" then some TraceLevel
  else if levelStr = "debug" then some DebugLevel
  else if levelStr = "info" then some InfoLevel
  else if levelStr = "warn" then some WarnLevel
  else if levelStr = "error" then some ErrorLevel
  else if levelStr = "fatal" then some FatalLevel
  else if levelStr = "panic" then some PanicLevel
  else if levelStr = "disabled" then some Disabled
  else if levelStr = "" then some NoLevel
  else
    match strconvParseInt levelStr with
    | some i => if -128 ≤ i ∧ i ≤ 127 then some i else none
    | none => none

/-- The reference environment.  Integer literals are converted by
`strconvParseInt`; no example holds a float other than `3.5`, a time string,
a non-ASCII level name or an escaped logfmt value. -/
def refEnv : Env where
  sonicGet := refSonicGet
  nodeInt64 := fun lit =>
    match strconvParseInt lit with
    | some i => (i, Bool.true)
    | none => (0, Bool.false)
  logfmtDecode := goLogfmtDecode (fun _ => none)
  parseFloat := fun s => if s = "3.5" then some ⟨0x400C000000000000⟩ else none
  timeParse := fun _ _ => none
  stringsToLower := fun s => String.mk (s.data.map Char.toLower)
  zerologParseLevel := refParseLevel

/-- A fresh `Relogger` (source `NewRelogger`), `parsedTime` at its zero value
and nothing logged. -/
def initState : State :=
  { r := { mongoCompWidth := 0, mongoContextWidth := 0, mongoIDWidth := 0, buf := "" }
    parsedTime := Time.zero
    log := [] }

end Relog
namespace Relog

/-! ## Basic lemmas -/

theorem utf8go_pos (cs : List Char) (h : cs ≠ []) : 0 < String.utf8ByteSize.go cs := by
  cases cs with
  | nil => exact absurd rfl h
  | cons c cs =>
    have := Char.utf8Size_pos c
    simp only [String.utf8ByteSize.go]
    omega

theorem utf8go_append (cs ds : List Char) :
    String.utf8ByteSize.go (cs ++ ds) = String.utf8ByteSize.go cs + String.utf8ByteSize.go ds := by
  induction cs with
  | nil => simp [String.utf8ByteSize.go]
  | cons c cs ih =>
    show String.utf8ByteSize.go (cs ++ ds) + c.utf8Size = _
    rw [ih]; simp only [String.utf8ByteSize.go]; omega

theorem len_eq_zero_iff (s : String) : len s = 0 ↔ s = "" := by
  constructor
  · intro h
    cases s with
    | mk cs =>
      by_cases hc : cs = []
      · subst hc; rfl
      · have := utf8go_pos cs hc
        simp only [len, String.utf8ByteSize] at h
        omega
  · intro h; subst h; rfl

theorem len_append (s t : String) : len (s ++ t) = len s + len t := by
  cases s; cases t
  simp only [len, String.utf8ByteSize]
  exact utf8go_append _ _

theorem len_stringsRepeat_space (n : Nat) : len (stringsRepeat " " n) = n := by
  induction n with
  | zero => rfl
  | succ n ih =>
    simp only [stringsRepeat, len_append, ih]
    have : len " " = 1 := by decide
    omega

theorem padString_spec (prevMax : Int) (s : String) :
    padString prevMax s
      = (max prevMax (len s), s ++ stringsRepeat " " (max prevMax (len s) - len s).toNat) := by
  unfold padString
  split_ifs with h1 h2
  · have : max prevMax (len s : Int) = prevMax := by omega
    rw [this, ← h1]; simp [stringsRepeat]
  · have : max prevMax (len s : Int) = len s := by omega
    rw [this]; simp [stringsRepeat]
  · have : max prevMax (len s : Int) = prevMax := by omega
    rw [this]

theorem jsonInput_eq (s : State) (b : String) : jsonInput s b = s.r.buf ++ b := by
  unfold jsonInput
  split_ifs with h
  · rfl
  · have h0 : len s.r.buf = 0 := by omega
    rw [(len_eq_zero_iff _).mp h0]; simp

theorem concatLines_append (xs : List String) (l : String) :
    concatLines (xs ++ [l]) = concatLines xs ++ l := by
  induction xs with
  | nil => simp [concatLines]
  | cons x xs ih => simp [concatLines, ih, String.append_assoc]

theorem resolveMessage_buf (r : Relogger) (root : Node) (m : Bool) (ig : List String) :
    (resolveMessage r root m ig).r.buf = r.buf := by
  unfold resolveMessage mongoMessage
  repeat' split
  all_goals rfl

theorem processObject_buf (env : Env) (s : State) (root : Node) :
    (processObject env s root).r.buf = s.r.buf := by
  simp [processObject, State.emit, resolveMessage_buf]

theorem logged_enabled (ev : LogEvent) (h : withLevelEnabled ev.level = Bool.true) :
    logged ev = [ev] := by
  simp [logged, h]

theorem logged_disabled (ev : LogEvent) (h : withLevelEnabled ev.level = Bool.false) :
    logged ev = [] := by
  simp [logged, h]

theorem logged_NoLevel (t : Time) (message : String) (fields : List (String × Value)) :
    logged ⟨t, NoLevel, message, fields⟩ = [⟨t, NoLevel, message, fields⟩] :=
  logged_enabled ⟨t, NoLevel, message, fields⟩
    (show withLevelEnabled NoLevel = Bool.true by decide)

theorem logged_mk (t : Time) (level : Level) (message : String)
    (fields : List (String × Value)) (h : withLevelEnabled level = Bool.true) :
    logged ⟨t, level, message, fields⟩ = [⟨t, level, message, fields⟩] :=
  logged_enabled ⟨t, level, message, fields⟩ h

theorem logged_cases (ev : LogEvent) : logged ev = [] ∨ logged ev = [ev] := by
  cases h : withLevelEnabled ev.level
  · exact Or.inl (logged_disabled ev h)
  · exact Or.inr (logged_enabled ev h)

theorem append_logged_cases (l : List LogEvent) (ev : LogEvent) :
    l ++ logged ev = l ∨ ∃ ev2, l ++ logged ev = l ++ [ev2] := by
  rcases logged_cases ev with h | h
  · left; rw [h]; simp
  · right; exact ⟨ev, by rw [h]⟩

theorem processObject_log_eq (env : Env) (s : State) (root : Node) :
    (processObject env s root).log = s.log ++ logged (objectEvent env s root) := rfl

theorem processObject_log (env : Env) (s : State) (root : Node) :
    ∃ ev, ev.level = (resolveLevel env root).1
      ∧ (processObject env s root).log = s.log ++ logged ev := by
  exact ⟨_, rfl, rfl⟩

theorem mongoLevel_enabled (code : String) (h : (parseMongoDBLevel code).2 = Bool.true) :
    withLevelEnabled (parseMongoDBLevel code).1 = Bool.true := by
  unfold parseMongoDBLevel at h ⊢
  split_ifs at h ⊢ <;> decide

theorem processLine_incomplete (env : Env) (s : State) (b err : String)
    (h : env.sonicGet (jsonInput s b) = .error err) (he : isSonicEOFErr err = true) :
    processLine env s b = { s with r := { s.r with buf := s.r.buf ++ b } } := by
  have hj : processLineJson env s b
      = ({ s with r := { s.r with buf := s.r.buf ++ b } }, Bool.true) := by
    unfold processLineJson
    simp only [h, he, if_true]
    by_cases hl : len s.r.buf > 0
    · have : len (s.r.buf ++ b) ≠ 0 := by rw [len_append]; omega
      simp [hl, this]
    · have h0 : len s.r.buf = 0 := by omega
      have hb := (len_eq_zero_iff _).mp h0
      have e0 : len "" = 0 := rfl
      simp [jsonInput_eq, hb, e0]
  simp [processLine, hj]

theorem processLineJson_malformed (env : Env) (s : State) (b err : String)
    (h : env.sonicGet (jsonInput s b) = .error err) (he : isSonicEOFErr err = false) :
    processLineJson env s b = ({ s with r := { s.r with buf := "" } }, Bool.false) := by
  unfold processLineJson
  simp [h, he]

theorem processLineJson_nonobject (env : Env) (s : State) (b : String) (root : Node)
    (h : env.sonicGet (jsonInput s b) = .ok root)
    (ht : nodeType root ≠ ValueType.V_OBJECT) :
    processLineJson env s b = ({ s with r := { s.r with buf := "" } }, Bool.false) := by
  unfold processLineJson
  simp [h, ht]

theorem processLineJson_object (env : Env) (s : State) (b : String)
    (ms : List (String × Node))
    (h : env.sonicGet (jsonInput s b) = .ok (.object ms)) :
    processLineJson env s b
      = (processObject env { s with r := { s.r with buf := "" } } (.object ms), Bool.true) := by
  unfold processLineJson
  simp [h, nodeType]

theorem processLineLogFmt_r (env : Env) (s : State) (b : String) :
    (processLineLogFmt env s b).1.r = s.r := by
  unfold processLineLogFmt
  cases env.logfmtDecode b with
  | none => rfl
  | some pairs =>
    dsimp only
    by_cases hc : ((scanPairs env pairs).fields.length = 0 && !(scanPairs env pairs).hasMessage
        && !(scanPairs env pairs).hasLevel && !(scanPairs env pairs).hasTimestamp) = Bool.true
    · rw [if_pos hc]
    · rw [if_neg hc]; rfl

theorem processLineLogFmt_log (env : Env) (s : State) (b : String) :
    ((processLineLogFmt env s b).2 = Bool.false ∧ (processLineLogFmt env s b).1.log = s.log)
    ∨ ((processLineLogFmt env s b).2 = Bool.true
        ∧ ∃ ev, (processLineLogFmt env s b).1.log = s.log ++ logged ev) := by
  unfold processLineLogFmt
  cases env.logfmtDecode b with
  | none => exact Or.inl ⟨rfl, rfl⟩
  | some pairs =>
    dsimp only
    by_cases hc : ((scanPairs env pairs).fields.length = 0 && !(scanPairs env pairs).hasMessage
        && !(scanPairs env pairs).hasLevel && !(scanPairs env pairs).hasTimestamp) = Bool.true
    · rw [if_pos hc]; exact Or.inl ⟨rfl, rfl⟩
    · rw [if_neg hc]; exact Or.inr ⟨rfl, _, rfl⟩

/-- When the JSON stage reports unhandled, `processLine` emits at most one
event, from the logfmt stage or the raw one, and the buffer is empty. -/
theorem processLine_unhandled (env : Env) (s : State) (b : String)
    (h : processLineJson env s b = ({ s with r := { s.r with buf := "" } }, Bool.false)) :
    ((processLine env s b).log = s.log ∨ ∃ ev, (processLine env s b).log = s.log ++ [ev])
    ∧ (processLine env s b).r.buf = "" := by
  have hr := processLineLogFmt_r env { s with r := { s.r with buf := "" } } b
  rcases processLineLogFmt_log env { s with r := { s.r with buf := "" } } b with
    ⟨h2, hl⟩ | ⟨h2, ev, hl⟩
  · refine ⟨Or.inr ⟨⟨(processLineLogFmt env { s with r := { s.r with buf := "" } }
        b).1.parsedTime, NoLevel, b, []⟩, ?_⟩, ?_⟩
    · simp [processLine, h, h2, State.emit, hl, logged_NoLevel]
    · simp [processLine, h, h2, State.emit, hr]
  · refine ⟨?_, ?_⟩
    · have e : (processLine env s b).log = s.log ++ logged ev := by
        simp [processLine, h, h2, hl]
      rw [e]
      exact append_logged_cases s.log ev
    · simp [processLine, h, h2, hr]

/-! ## Padding -/

theorem padString_fst_ge (prevMax : Int) (str : String) :
    prevMax ≤ (padString prevMax str).1 := by
  rw [padString_spec]; exact le_max_left _ _

/-- C8: `padString` is a running-maximum right-pad: it returns the width
`max prevMax (len s)` and `s` followed by exactly `max prevMax (len s) - len s`
spaces; padding the same string again with the returned width changes
nothing; and once a string `t` at least as long as `s` has raised the width,
`s` is padded out to that width. -/
theorem padString_running_max (prevMax : Int) (s : String) (h : 0 ≤ prevMax) :
    padString prevMax s
        = (max prevMax (len s), s ++ stringsRepeat " " (max prevMax (len s) - len s).toNat)
    ∧ padString (padString prevMax s).1 s = padString prevMax s
    ∧ ∀ t : String, len s ≤ len t →
        padString (padString prevMax t).1 s
            = ((padString prevMax t).1,
                s ++ stringsRepeat " " ((padString prevMax t).1 - len s).toNat)
          ∧ prevMax ≤ (padString prevMax t).1
          ∧ (len t : Int) ≤ (padString prevMax t).1
          ∧ (len (padString (padString prevMax t).1 s).2 : Int) = (padString prevMax t).1 := by
  have _h0 := h
  refine ⟨padString_spec prevMax s, ?_, ?_⟩
  · rw [padString_spec prevMax s, padString_spec]
    have e : max (max prevMax (len s : Int)) (len s : Int) = max prevMax (len s : Int) := by
      omega
    simp only [e]
  · intro t hst
    have hw : (padString prevMax t).1 = max prevMax (len t : Int) := by rw [padString_spec]
    have e : max (max prevMax (len t : Int)) (len s : Int) = max prevMax (len t : Int) := by
      omega
    refine ⟨?_, ?_, ?_, ?_⟩
    · rw [hw, padString_spec, e]
    · rw [hw]; exact le_max_left _ _
    · rw [hw]; exact le_max_right _ _
    · rw [hw, padString_spec, e]
      simp only [len_append, len_stringsRepeat_space]
      omega

/-- C8 at a concrete input: with the width 5 the string `ab` is padded with
three spaces, and padding it again with the returned width changes nothing. -/
theorem padString_running_max_witness :
    (0 : Int) ≤ 5
    ∧ padString 5 "ab"
        = (max (5 : Int) (len "ab"),
            "ab" ++ stringsRepeat " " (max (5 : Int) (len "ab") - len "ab").toNat)
    ∧ padString (padString 5 "ab").1 "ab" = padString 5 "ab" :=
  ⟨by decide, (padString_running_max 5 "ab" (by decide)).1,
    (padString_running_max 5 "ab" (by decide)).2.1⟩

theorem widthsLe_refl (r : Relogger) : widthsLe r r :=
  ⟨le_refl _, le_refl _, le_refl _⟩

theorem widthsLe_trans {r1 r2 r3 : Relogger} (h1 : widthsLe r1 r2) (h2 : widthsLe r2 r3) :
    widthsLe r1 r3 :=
  ⟨le_trans h1.1 h2.1, le_trans h1.2.1 h2.2.1, le_trans h1.2.2 h2.2.2⟩

theorem resolveMessage_widths (r : Relogger) (root : Node) (m : Bool) (ig : List String) :
    widthsLe r (resolveMessage r root m ig).r := by
  unfold resolveMessage mongoMessage
  repeat' split
  all_goals first
    | exact widthsLe_refl r
    | exact ⟨padString_fst_ge _ _, padString_fst_ge _ _, padString_fst_ge _ _⟩

theorem processObject_widths (env : Env) (s : State) (root : Node) :
    widthsLe s.r (processObject env s root).r := by
  simp only [processObject, State.emit]
  exact resolveMessage_widths _ _ _ _

theorem processLineJson_widths (env : Env) (s : State) (b : String) :
    widthsLe s.r (processLineJson env s b).1.r := by
  unfold processLineJson
  dsimp only
  split
  · split_ifs <;> exact widthsLe_refl s.r
  · split_ifs
    · exact widthsLe_refl s.r
    · exact processObject_widths env { s with r := { s.r with buf := "" } } _

theorem processLine_widths (env : Env) (s : State) (b : String) :
    widthsLe s.r (processLine env s b).r := by
  have hj := processLineJson_widths env s b
  have hl := processLineLogFmt_r env (processLineJson env s b).1 b
  unfold processLine
  split_ifs
  · exact hj
  · rw [hl]; exact hj
  · simp only [State.emit, hl]; exact hj

/-- C9: the padding widths never shrink: after `processLine` each of the three
widths is at least its value before the call, and so it is after any
sequence of lines. -/
theorem widths_never_shrink (env : Env) (s : State) (b : String) :
    (s.r.mongoCompWidth ≤ (processLine env s b).r.mongoCompWidth
      ∧ s.r.mongoContextWidth ≤ (processLine env s b).r.mongoContextWidth
      ∧ s.r.mongoIDWidth ≤ (processLine env s b).r.mongoIDWidth)
    ∧ ∀ lines : List String,
        s.r.mongoCompWidth ≤ (relogLines env s lines).r.mongoCompWidth
        ∧ s.r.mongoContextWidth ≤ (relogLines env s lines).r.mongoContextWidth
        ∧ s.r.mongoIDWidth ≤ (relogLines env s lines).r.mongoIDWidth := by
  refine ⟨processLine_widths env s b, ?_⟩
  intro lines
  show widthsLe s.r (relogLines env s lines).r
  induction lines generalizing s with
  | nil => exact widthsLe_refl s.r
  | cons l ls ih =>
    exact widthsLe_trans (processLine_widths env s l) (ih (processLine env s l))

/-! ## Multi-line JSON -/

theorem processLine_object (env : Env) (s : State) (b : String) (ms : List (String × Node))
    (h : env.sonicGet (jsonInput s b) = .ok (.object ms)) :
    processLine env s b
      = processObject env { s with r := { s.r with buf := "" } } (.object ms) := by
  simp [processLine, processLineJson_object env s b ms h]

/-- While every proper non-empty prefix of the document is incomplete, the
lines read so far are exactly the pending buffer and nothing else changes. -/
theorem relogLines_buffering (env : Env) (s : State) (lines : List String)
    (hbuf : s.r.buf = "")
    (hinc : ∀ k, 1 ≤ k → k < lines.length →
      ∃ err, env.sonicGet (concatLines (lines.take k)) = .error err
        ∧ isSonicEOFErr err = Bool.true) :
    ∀ k, k < lines.length →
      relogLines env s (lines.take k)
        = { s with r := { s.r with buf := concatLines (lines.take k) } } := by
  intro k
  induction k with
  | zero =>
    intro _
    simp only [List.take_zero, relogLines, List.foldl_nil, concatLines]
    rw [← hbuf]
  | succ k ih =>
    intro hk
    have hk0 : k < lines.length := by omega
    have hprev := ih hk0
    obtain ⟨err, hget, heof⟩ := hinc (k + 1) (by omega) hk
    have htake : lines.take (k + 1) = lines.take k ++ [lines.get ⟨k, hk0⟩] := by
      rw [List.take_succ]
      simp [List.getElem?_eq_getElem hk0]
    have hcat : concatLines (lines.take (k + 1))
        = concatLines (lines.take k) ++ lines.get ⟨k, hk0⟩ := by
      rw [htake, concatLines_append]
    rw [htake]
    simp only [relogLines, List.foldl_append, List.foldl_cons, List.foldl_nil] at hprev ⊢
    rw [hprev]
    have hin : env.sonicGet
        (jsonInput { s with r := { s.r with buf := concatLines (lines.take k) } }
          (lines.get ⟨k, hk0⟩)) = .error err := by
      rw [jsonInput_eq]; rw [← hcat]; exact hget
    rw [processLine_incomplete env _ _ err hin heof, concatLines_append]

/-- C1 as stated fails: the record `{"level":"disabled"}` split after the colon
meets every condition (the first line alone is incomplete, both lines
together parse as an object), yet no event is emitted on the second line,
because `log.WithLevel` returns nil for the level `disabled`. -/
theorem multiline_disabled_counterexample :
    initState.r.buf = ""
    ∧ (∃ err, refEnv.sonicGet
          (concatLines (["\x7b\"level\":", "\"disabled\"\x7d"].take 1)) = .error err
        ∧ isSonicEOFErr err = Bool.true)
    ∧ refEnv.sonicGet (concatLines ["\x7b\"level\":", "\"disabled\"\x7d"])
        = .ok (.object [("level", .str "disabled")])
    ∧ (relogLines refEnv initState ["\x7b\"level\":", "\"disabled\"\x7d"]).log = []
    ∧ ¬ ∃ ev, (relogLines refEnv initState ["\x7b\"level\":", "\"disabled\"\x7d"]).log
        = initState.log ++ [ev] := by
  have hlog : (relogLines refEnv initState ["\x7b\"level\":", "\"disabled\"\x7d"]).log = [] := by
    rfl
  refine ⟨rfl, ⟨"\"Syntax error at index 9: eof", by rfl, by decide⟩, by rfl, hlog, ?_⟩
  rintro ⟨ev, hev⟩
  rw [hlog] at hev
  have := congrArg List.length hev
  simp [initState] at this

/-- C1 amended: starting with an empty pending buffer, if every proper non-empty
prefix `l1 ++ ... ++ lk` of the document is reported as incomplete and the
whole `l1 ++ ... ++ lN` parses as an object, then no event is emitted while
the first `N - 1` lines are read; on the `N`-th line the event of the record
is built and emitted, exactly one event, when the logger emits the resolved
level of the record, and nothing is emitted when it does not (level
`disabled`, or a level below trace); the pending buffer is empty afterwards. -/
theorem multiline_json_reassembly (env : Env) (s : State) (lines : List String)
    (ms : List (String × Node))
    (hN : 1 ≤ lines.length)
    (hbuf : s.r.buf = "")
    (hinc : ∀ k, 1 ≤ k → k < lines.length →
      ∃ err, env.sonicGet (concatLines (lines.take k)) = .error err
        ∧ isSonicEOFErr err = Bool.true)
    (hobj : env.sonicGet (concatLines lines) = .ok (.object ms)) :
    (∀ k, k < lines.length → (relogLines env s (lines.take k)).log = s.log)
    ∧ (∃ ev, ev.level = (resolveLevel env (.object ms)).1
        ∧ (relogLines env s lines).log = s.log ++ logged ev)
    ∧ (withLevelEnabled (resolveLevel env (.object ms)).1 = Bool.true →
        ∃ ev, (relogLines env s lines).log = s.log ++ [ev])
    ∧ (withLevelEnabled (resolveLevel env (.object ms)).1 = Bool.false →
        (relogLines env s lines).log = s.log)
    ∧ (relogLines env s lines).r.buf = "" := by
  have hb := relogLines_buffering env s lines hbuf hinc
  refine ⟨fun k hk => by rw [hb k hk], ?_⟩
  have hlast : lines.length - 1 < lines.length := by omega
  have hsplit : lines = lines.take (lines.length - 1)
      ++ [lines.get ⟨lines.length - 1, hlast⟩] := by
    have h1 : lines.take (lines.length - 1 + 1)
        = lines.take (lines.length - 1) ++ [lines.get ⟨lines.length - 1, hlast⟩] := by
      rw [List.take_succ]
      simp [List.getElem?_eq_getElem hlast]
    have h2 : lines.length - 1 + 1 = lines.length := by omega
    rw [h2, List.take_length] at h1
    exact h1
  have hcat : concatLines lines
      = concatLines (lines.take (lines.length - 1))
          ++ lines.get ⟨lines.length - 1, hlast⟩ := by
    conv_lhs => rw [hsplit]
    rw [concatLines_append]
  have hrun : relogLines env s lines
      = processLine env (relogLines env s (lines.take (lines.length - 1)))
          (lines.get ⟨lines.length - 1, hlast⟩) := by
    conv_lhs => rw [hsplit]
    simp only [relogLines, List.foldl_append, List.foldl_cons, List.foldl_nil]
  rw [hrun, hb _ hlast]
  have hin : env.sonicGet
      (jsonInput { s with r := { s.r with buf := concatLines (lines.take (lines.length - 1)) } }
        (lines.get ⟨lines.length - 1, hlast⟩)) = .ok (.object ms) := by
    rw [jsonInput_eq]; rw [← hcat]; exact hobj
  rw [processLine_object env _ _ ms hin]
  obtain ⟨ev, hlevel, hlog⟩ := processObject_log env
    { s with r := { s.r with buf := "" } } (.object ms)
  refine ⟨⟨ev, hlevel, hlog⟩, ?_, ?_, ?_⟩
  · intro hen
    exact ⟨ev, by rw [hlog, logged_enabled ev (by rw [hlevel]; exact hen)]⟩
  · intro hdis
    rw [hlog, logged_disabled ev (by rw [hlevel]; exact hdis)]
    simp
  · rw [processObject_buf]

/-- C1 amended, at a concrete input: the record `{"msg":"hi"}` split after the
colon; its level is none, so one event is emitted on the second line. -/
theorem multiline_json_reassembly_witness :
    (relogLines refEnv initState ["\x7b\"msg\":"]).log = []
    ∧ (∃ ev, (relogLines refEnv initState ["\x7b\"msg\":", "\"hi\"\x7d"]).log = [] ++ [ev])
    ∧ (relogLines refEnv initState ["\x7b\"msg\":", "\"hi\"\x7d"]).r.buf = "" :=
  have h := multiline_json_reassembly refEnv initState ["\x7b\"msg\":", "\"hi\"\x7d"]
    [("msg", .str "hi")] (by decide) rfl
    (by
      intro k h1 h2
      have hk : k = 1 := by simp at h2; omega
      subst hk
      exact ⟨"\"Syntax error at index 7: eof", by rfl, by decide⟩)
    (by rfl)
  ⟨h.1 1 (by decide), h.2.2.1 (by decide), h.2.2.2.2⟩

/-! ## The fallback chain -/

theorem state_buf_eta (s : State) (hbuf : s.r.buf = "") :
    ({ s with r := { s.r with buf := "" } } : State) = s := by
  cases s with
  | mk r t l =>
    cases r with
    | mk a b c d =>
      simp only at hbuf
      subst hbuf
      rfl

/-- C2 as stated fails: in the reference environment the JSON stage rejects
the line `plain text, not json, not kv` with a structural error, yet the
event `processLine` emits is not the raw one. -/
theorem plain_text_counterexample :
    ({ initState with parsedTime := timeUnix 1700000000 } : State).r.buf = ""
    ∧ (∃ err, refEnv.sonicGet plainLine = .error err ∧ isSonicEOFErr err = Bool.false)
    ∧ ¬ ∃ ev,
        (processLine refEnv { initState with parsedTime := timeUnix 1700000000 } plainLine).log
            = [ev]
          ∧ ev.level = NoLevel ∧ ev.message = plainLine ∧ ev.fields = []
          ∧ (processLine refEnv { initState with parsedTime := timeUnix 1700000000 }
              plainLine).parsedTime = timeUnix 1700000000 := by
  refine ⟨rfl, ⟨"\"Syntax error at index 0: invalid char", by rfl, by decide⟩, ?_⟩
  rintro ⟨ev, hlog, _, hmsg, _, _⟩
  have h1 : (processLine refEnv { initState with parsedTime := timeUnix 1700000000 }
      plainLine).log.map (fun e => e.message) = [""] := by decide
  rw [hlog] at h1
  simp only [List.map_cons, List.map_nil, hmsg] at h1
  exact absurd h1 (by decide)

/-- C2 amended: go-logfmt reads the six words of `plain text, not json, not kv`
as keys without a value, so once the JSON stage has rejected the line the
logfmt stage handles it: `processLine` emits exactly one event, of level
none, with an empty message and six string fields with empty values, and
resets `parsedTime` to the zero instant. -/
theorem plain_text_is_logfmt :
    (∀ unquote : String → Option String, goLogfmtDecode unquote plainLine = some sixBareKeys)
    ∧ ∀ (env : Env) (s : State) (err : String),
        s.r.buf = "" →
        env.sonicGet plainLine = .error err → isSonicEOFErr err = Bool.false →
        env.logfmtDecode plainLine = some sixBareKeys →
        env.parseFloat "" = none →
        processLine env s plainLine
          = { s with
              parsedTime := Time.zero
              log := s.log ++ [⟨Time.zero, NoLevel, "",
                [("plain", Value.str ""), ("text,", Value.str ""), ("not", Value.str ""),
                 ("json,", Value.str ""), ("not", Value.str ""), ("kv", Value.str "")]⟩] } := by
  refine ⟨fun _ => rfl, ?_⟩
  intro env s err hbuf hjson he hdec hfloat
  have hin : env.sonicGet (jsonInput s plainLine) = .error err := by
    rw [jsonInput_eq, hbuf]; simpa using hjson
  have hj := processLineJson_malformed env s plainLine err hin he
  rw [state_buf_eta s hbuf] at hj
  have hp : strconvParseInt "" = none := by decide
  have hscan : scanPairs env sixBareKeys
      = { timestamp := Time.zero, hasTimestamp := Bool.false, level := NoLevel,
          hasLevel := Bool.false, message := "", hasMessage := Bool.false,
          fields := sixBareKeys } := by
    simp [scanPairs, scanPair, sixBareKeys]
  have hl : processLineLogFmt env s plainLine
      = ({ s with
            parsedTime := Time.zero
            log := s.log ++ [⟨Time.zero, NoLevel, "",
              [("plain", Value.str ""), ("text,", Value.str ""), ("not", Value.str ""),
               ("json,", Value.str ""), ("not", Value.str ""), ("kv", Value.str "")]⟩] },
          Bool.true) := by
    unfold processLineLogFmt
    rw [hdec]
    simp only [hscan]
    simp [sixBareKeys, State.emit, coercePair, hp, hfloat, logged_NoLevel]
  simp [processLine, hj, hl]

/-- C2 amended, in the reference environment. -/
theorem plain_text_is_logfmt_witness :
    (processLine refEnv { initState with parsedTime := timeUnix 1700000000 } plainLine).parsedTime
        = Time.zero
    ∧ (processLine refEnv { initState with parsedTime := timeUnix 1700000000 } plainLine).log
        = [⟨Time.zero, NoLevel, "",
            [("plain", Value.str ""), ("text,", Value.str ""), ("not", Value.str ""),
             ("json,", Value.str ""), ("not", Value.str ""), ("kv", Value.str "")]⟩] :=
  have h := plain_text_is_logfmt.2 refEnv { initState with parsedTime := timeUnix 1700000000 }
    "\"Syntax error at index 0: invalid char" rfl (by rfl) (by decide) (by rfl) (by rfl)
  ⟨by rw [h], by rw [h]; rfl⟩

/-- C3 as stated fails: the line `123` is a complete JSON number; the JSON stage
reports it unhandled, the logfmt stage then reads it as the key `123` and
emits the event, which is not the raw one. -/
theorem nonobject_json_counterexample :
    refEnv.sonicGet (jsonInput initState "123") = .ok (.number "123")
    ∧ nodeType (.number "123") ≠ ValueType.V_OBJECT
    ∧ (processLineLogFmt refEnv (processLineJson refEnv initState "123").1 "123").2 = Bool.true
    ∧ ¬ ∃ ev, (processLine refEnv initState "123").log = [ev]
        ∧ ev.level = NoLevel ∧ ev.message = "123" ∧ ev.fields = [] := by
  refine ⟨by rfl, by decide, by decide, ?_⟩
  rintro ⟨ev, hlog, _, hmsg, _⟩
  have h1 : (processLine refEnv initState "123").log.map (fun e => e.message) = [""] := by
    decide
  rw [hlog] at h1
  simp only [List.map_cons, List.map_nil, hmsg] at h1
  exact absurd h1 (by decide)

/-- C3 amended: when the buffer-prefixed content parses as a complete JSON
value that is not an object, `processLineJson` clears the pending buffer and
reports unhandled; `processLine` then runs the logfmt stage on the line, and
emits the raw event (level none, the verbatim line, no fields) only if the
logfmt stage reports unhandled too. -/
theorem nonobject_json_goes_to_logfmt (env : Env) (s : State) (b : String) (root : Node)
    (h : env.sonicGet (jsonInput s b) = .ok root)
    (ht : nodeType root ≠ ValueType.V_OBJECT) :
    processLineJson env s b = ({ s with r := { s.r with buf := "" } }, Bool.false)
    ∧ (processLine env s b).r.buf = ""
    ∧ ((processLineLogFmt env { s with r := { s.r with buf := "" } } b).2 = Bool.true →
        processLine env s b
          = (processLineLogFmt env { s with r := { s.r with buf := "" } } b).1)
    ∧ ((processLineLogFmt env { s with r := { s.r with buf := "" } } b).2 = Bool.false →
        (processLine env s b).log
          = s.log ++ [⟨(processLine env s b).parsedTime, NoLevel, b, []⟩]) := by
  have hj := processLineJson_nonobject env s b root h ht
  refine ⟨hj, (processLine_unhandled env s b hj).2, ?_, ?_⟩
  · intro h2
    simp [processLine, hj, h2]
  · intro h2
    rcases processLineLogFmt_log env { s with r := { s.r with buf := "" } } b with
      ⟨_, hl⟩ | ⟨h3, _⟩
    · simp [processLine, hj, h2, State.emit, hl, logged_NoLevel]
    · rw [h2] at h3; exact absurd h3 (by decide)

/-- C3 amended, in the reference environment, on the line `123`. -/
theorem nonobject_json_goes_to_logfmt_witness :
    processLineJson refEnv initState "123"
        = ({ initState with r := { initState.r with buf := "" } }, Bool.false)
    ∧ (processLine refEnv initState "123").r.buf = "" :=
  have h := nonobject_json_goes_to_logfmt refEnv initState "123" (.number "123") (by rfl)
    (by decide)
  ⟨h.1, h.2.1⟩

/-! ## Alias resolution -/

theorem matchName_eq (key : String) (names : List String) :
    matchName key names = if names.contains key then some key else none := by
  induction names with
  | nil => simp [matchName]
  | cons n rest ih =>
    simp only [matchName, List.contains_cons]
    by_cases hk : key = n
    · subst hk; simp
    · simp [hk, ih]

/-- C5 as stated fails: in `{"lvl":"info","level":"warn"}` the alias found for
the list `level, lvl, severity` is `lvl`, the first key of the document, not
`level`, and the level of the event is info. -/
theorem alias_precedence_counterexample :
    (findWithAnyName (.object [("lvl", .str "info"), ("level", .str "warn")])
        ["level", "lvl", "severity"]).1 = "lvl"
    ∧ (findWithAnyName (.object [("lvl", .str "info"), ("level", .str "warn")])
        ["level", "lvl", "severity"]).1 ≠ "level"
    ∧ refEnv.sonicGet "\x7b\"lvl\":\"info\",\"level\":\"warn\"\x7d"
        = .ok (.object [("lvl", .str "info"), ("level", .str "warn")])
    ∧ (processLine refEnv initState "\x7b\"lvl\":\"info\",\"level\":\"warn\"\x7d").log.map
        (fun ev => ev.level) = [InfoLevel] := by
  refine ⟨by decide, by decide, by rfl, by decide⟩

/-- C5 amended: `findWithAnyName` follows the document, not the alias list: on
an object it returns the first member, in document order, whose key is one
of the aliases (with that key as the name), and nothing when no key is an
alias. -/
theorem findWithAnyName_document_order (ms : List (String × Node)) (names : List String) :
    findWithAnyName (.object ms) names
      = match ms.find? (fun m => names.contains m.1) with
        | some m => (m.1, some m.2)
        | none => ("", none) := by
  simp only [findWithAnyName, nodeMembers]
  induction ms with
  | nil => simp [findMember]
  | cons m rest ih =>
    obtain ⟨key, child⟩ := m
    simp only [findMember, matchName_eq, List.find?_cons]
    cases hk : names.contains key with
    | true => simp only [↓reduceIte]
    | false =>
      simp only [Bool.false_eq_true, ↓reduceIte]
      exact ih

theorem findWithAnyName_single (ms : List (String × Node)) (key : String) :
    findWithAnyName (.object ms) [key]
      = match lookupKey key ms with
        | some v => (key, some v)
        | none => ("", none) := by
  simp only [findWithAnyName, nodeMembers]
  induction ms with
  | nil => simp [findMember, lookupKey]
  | cons m rest ih =>
    obtain ⟨k, child⟩ := m
    simp only [findMember, lookupKey, matchName]
    by_cases hk : k = key
    · subst hk; simp
    · simp only [hk, if_false]
      exact ih

/-- C6: for the record `{"level":"warn","lvl":"info"}` `processLineJson` emits
one event of level warn whose only field is the string field `lvl` with the
value `info`. -/
theorem level_alias_example (env : Env) (s : State)
    (hbuf : s.r.buf = "")
    (hparse : env.sonicGet "\x7b\"level\":\"warn\",\"lvl\":\"info\"\x7d"
      = .ok (.object [("level", .str "warn"), ("lvl", .str "info")]))
    (hlevel : env.zerologParseLevel (env.stringsToLower "warn") = some WarnLevel) :
    processLineJson env s "\x7b\"level\":\"warn\",\"lvl\":\"info\"\x7d"
      = ({ s with log := s.log ++ [⟨s.parsedTime, WarnLevel, "", [("lvl", Value.str "info")]⟩] },
          Bool.true) := by
  have hin : env.sonicGet (jsonInput s "\x7b\"level\":\"warn\",\"lvl\":\"info\"\x7d")
      = .ok (.object [("level", .str "warn"), ("lvl", .str "info")]) := by
    rw [jsonInput_eq, hbuf]; simpa using hparse
  rw [processLineJson_object env s _ _ hin, state_buf_eta s hbuf]
  have hlv : resolveLevel env (.object [("level", .str "warn"), ("lvl", .str "info")])
      = (WarnLevel, Bool.false, ["level"]) := by
    simp [resolveLevel, findWithAnyName, nodeMembers, findMember, matchName, nodeString,
      parseLevel, hlevel]
  simp [processObject, hlv, resolveMessage, resolveTimestamp, unwrapAttr, resolveStacktrace,
    findWithAnyName, nodeMembers, findMember, matchName, parseTimestampNode, emitFields,
    fieldValue, State.emit,
    logged_mk _ WarnLevel _ _ (show withLevelEnabled WarnLevel = Bool.true by decide)]

/-- C6 in the reference environment. -/
theorem level_alias_example_witness :
    processLineJson refEnv initState "\x7b\"level\":\"warn\",\"lvl\":\"info\"\x7d"
      = ({ initState with
            log := initState.log
              ++ [⟨initState.parsedTime, WarnLevel, "", [("lvl", Value.str "info")]⟩] },
          Bool.true) :=
  level_alias_example refEnv initState rfl (by rfl) (by decide)

/-! ## The MongoDB convention -/

theorem padString_zero (str : String) : padString 0 str = ((len str : Int), str) := by
  rw [padString_spec]
  have e : max (0 : Int) (len str : Int) = (len str : Int) := by omega
  rw [e]
  simp [stringsRepeat]

theorem emitFields_not_ignored (env : Env) (ignoreNodes : List String)
    (ms : List (String × Node)) :
    ∀ f ∈ emitFields env ignoreNodes ms, ignoreNodes.contains f.1 = Bool.false := by
  induction ms with
  | nil => intro f hf; simp [emitFields] at hf
  | cons m rest ih =>
    obtain ⟨key, node⟩ := m
    intro f hf
    simp only [emitFields] at hf
    cases hk : ignoreNodes.contains key with
    | true =>
      simp only [hk, ↓reduceIte] at hf
      exact ih f hf
    | false =>
      simp only [hk, Bool.false_eq_true, ↓reduceIte, List.mem_cons] at hf
      rcases hf with hf | hf
      · rw [hf]; exact hk
      · exact ih f hf

theorem resolveTimestamp_ignore_sub (env : Env) (root : Node) (mongo : Bool) (t : Time)
    (ignoreNodes : List String) :
    ∀ x ∈ ignoreNodes, x ∈ (resolveTimestamp env root mongo t ignoreNodes).2 := by
  intro x hx
  unfold resolveTimestamp
  dsimp only
  split_ifs <;> simp [hx]

theorem parseMongoDBLevel_known (code : String)
    (hcode : code ∈ ["F", "E", "W", "I", "D1", "D2", "D3", "D4", "D5"]) :
    (parseMongoDBLevel code).2 = Bool.true := by
  simp only [List.mem_cons, List.mem_singleton, List.not_mem_nil, or_false] at hcode
  rcases hcode with h | h | h | h | h | h | h | h | h <;> subst h <;> decide

/-- C7 as stated fails: a record that meets every condition of the claim and
also has a stacktrace key gets the stacktrace appended to its message. -/
theorem mongodb_message_counterexample :
    refEnv.sonicGet
        "\x7b\"s\":\"I\",\"c\":\"N\",\"ctx\":\"x\",\"id\":\"1\",\"msg\":\"hello\",\"stack\":\"boom\"\x7d"
      = .ok (.object [("s", .str "I"), ("c", .str "N"), ("ctx", .str "x"), ("id", .str "1"),
          ("msg", .str "hello"), ("stack", .str "boom")])
    ∧ (processLineJson refEnv initState
        "\x7b\"s\":\"I\",\"c\":\"N\",\"ctx\":\"x\",\"id\":\"1\",\"msg\":\"hello\",\"stack\":\"boom\"\x7d").1.log.map
          (fun ev => ev.message)
        = ["[N|x|1] hello\n\tSTACKTRACE\n\t==========\n\tboom"]
    ∧ "[N|x|1] hello\n\tSTACKTRACE\n\t==========\n\tboom" ≠ "[N|x|1] hello" := by
  refine ⟨by rfl, by decide, by decide⟩

/-- C7 amended: with the three padding widths at 0, for a JSON object without a
level, lvl or severity key, whose `s` is a string with a known severity code,
whose `c`, `ctx` and `id` are strings, whose matched message key holds a
string, and in which no stacktrace key is found (in `attr` when the record
has one, else in the record), the event has the mapped level, its message is
exactly `[c|ctx|id] msg` without padding, and no field is named `s`. -/
theorem mongodb_first_record (env : Env) (s : State) (b : String)
    (ms : List (String × Node)) (code c ctx id m : String)
    (hw : s.r.mongoCompWidth = 0 ∧ s.r.mongoContextWidth = 0 ∧ s.r.mongoIDWidth = 0)
    (hparse : env.sonicGet (jsonInput s b) = .ok (.object ms))
    (hnolevel : (findWithAnyName (.object ms) ["level", "lvl", "severity"]).2 = none)
    (hs : lookupKey "s" ms = some (.str code))
    (hcode : code ∈ ["F", "E", "W", "I", "D1", "D2", "D3", "D4", "D5"])
    (hc : lookupKey "c" ms = some (.str c))
    (hctx : lookupKey "ctx" ms = some (.str ctx))
    (hid : lookupKey "id" ms = some (.str id))
    (hmsg : (findWithAnyName (.object ms) ["message", "msg"]).2 = some (.str m))
    (hnostack : (findWithAnyName (unwrapAttr (.object ms) Bool.true)
      ["stacktrace", "stack_trace", "stack"]).2 = none) :
    (processLineJson env s b).2 = Bool.true
    ∧ ∃ ev, (processLineJson env s b).1.log = s.log ++ [ev]
      ∧ ev.message = "[" ++ c ++ "|" ++ ctx ++ "|" ++ id ++ "] " ++ m
      ∧ (code = "F" → ev.level = FatalLevel)
      ∧ (code = "E" → ev.level = ErrorLevel)
      ∧ (code = "W" → ev.level = WarnLevel)
      ∧ (code = "I" → ev.level = InfoLevel)
      ∧ (code = "D1" → ev.level = DebugLevel)
      ∧ (code ∈ ["D2", "D3", "D4", "D5"] → ev.level = TraceLevel)
      ∧ ∀ f ∈ ev.fields, f.1 ≠ "s" := by
  obtain ⟨hw1, hw2, hw3⟩ := hw
  have hpm := parseMongoDBLevel_known code hcode
  have hlv : resolveLevel env (.object ms) = ((parseMongoDBLevel code).1, Bool.true, ["s"]) := by
    rcases hfl : findWithAnyName (.object ms) ["level", "lvl", "severity"] with ⟨n, _ | v⟩
    · simp [resolveLevel, hfl, findWithAnyName_single, hs, nodeString, hpm]
    · rw [hfl] at hnolevel; simp at hnolevel
  obtain ⟨mk, hfm⟩ : ∃ mk, findWithAnyName (.object ms) ["message", "msg"]
      = (mk, some (.str m)) := by
    rcases hfm : findWithAnyName (.object ms) ["message", "msg"] with ⟨n, v⟩
    rw [hfm] at hmsg
    simp only at hmsg
    exact ⟨n, by rw [hmsg]⟩
  have hmr : resolveMessage { s.r with buf := "" } (.object ms) Bool.true ["s"]
      = { r := { mongoCompWidth := (len c : Int), mongoContextWidth := (len ctx : Int),
                 mongoIDWidth := (len id : Int), buf := "" }
          message := "[" ++ c ++ "|" ++ ctx ++ "|" ++ id ++ "] " ++ m
          isMongoDBLogging := Bool.true
          ignoreNodes := ["s", mk] } := by
    simp [resolveMessage, hfm, nodeString, mongoMessage, findWithAnyName_single, hc, hctx, hid,
      hw1, hw2, hw3, padString_zero]
  rw [processLineJson_object env s b ms hparse]
  have hen : withLevelEnabled
      (objectEvent env { s with r := { s.r with buf := "" } } (.object ms)).level
      = Bool.true := by
    show withLevelEnabled (resolveLevel env (.object ms)).1 = Bool.true
    rw [hlv]
    exact mongoLevel_enabled code hpm
  refine ⟨rfl, objectEvent env { s with r := { s.r with buf := "" } } (.object ms), ?_, ?_, ?_⟩
  · show (processObject env _ _).log = _
    rw [processObject_log_eq, logged_enabled _ hen]
  · simp only [objectEvent, hlv, hmr]
    rcases hfs : findWithAnyName (unwrapAttr (.object ms) Bool.true)
        ["stacktrace", "stack_trace", "stack"] with ⟨n, _ | v⟩
    · simp [resolveStacktrace, hfs]
    · rw [hfs] at hnostack; simp at hnostack
  · simp only [objectEvent, hlv, hmr]
    refine ⟨?_, ?_, ?_, ?_, ?_, ?_, ?_⟩
    · intro h; subst h; decide
    · intro h; subst h; decide
    · intro h; subst h; decide
    · intro h; subst h; decide
    · intro h; subst h; decide
    · intro h
      simp only [List.mem_cons, List.mem_singleton, List.not_mem_nil, or_false] at h
      rcases h with h | h | h | h <;> subst h <;> decide
    · intro f hf hfs
      have hni := emitFields_not_ignored env _ _ f hf
      have hmem : "s" ∈ (resolveStacktrace (unwrapAttr (.object ms) Bool.true)
          ("[" ++ c ++ "|" ++ ctx ++ "|" ++ id ++ "] " ++ m)
          (resolveTimestamp env (.object ms) Bool.true s.parsedTime ["s", mk]).2).2 := by
        rcases hfs2 : findWithAnyName (unwrapAttr (.object ms) Bool.true)
            ["stacktrace", "stack_trace", "stack"] with ⟨n, _ | v⟩
        · simp only [resolveStacktrace, hfs2]
          exact resolveTimestamp_ignore_sub env _ _ _ _ "s" (by simp)
        · rw [hfs2] at hnostack; simp at hnostack
      rw [hfs] at hni
      have : (resolveStacktrace (unwrapAttr (.object ms) Bool.true)
          ("[" ++ c ++ "|" ++ ctx ++ "|" ++ id ++ "] " ++ m)
          (resolveTimestamp env (.object ms) Bool.true s.parsedTime ["s", mk]).2).2.contains "s"
          = Bool.true := by simpa using hmem
      rw [this] at hni
      exact absurd hni (by decide)

/-- C7 amended, on the record of the specification, in the reference
environment: the level is info and the message `[NETWORK|conn1|12345] hello`. -/
theorem mongodb_first_record_witness :
    ∃ ev, (processLineJson refEnv initState
        "\x7b\"s\":\"I\",\"c\":\"NETWORK\",\"ctx\":\"conn1\",\"id\":\"12345\",\"msg\":\"hello\"\x7d").1.log
          = initState.log ++ [ev]
      ∧ ev.message = "[NETWORK|conn1|12345] hello"
      ∧ ev.level = InfoLevel
      ∧ ∀ f ∈ ev.fields, f.1 ≠ "s" :=
  have h := mongodb_first_record refEnv initState
    "\x7b\"s\":\"I\",\"c\":\"NETWORK\",\"ctx\":\"conn1\",\"id\":\"12345\",\"msg\":\"hello\"\x7d"
    [("s", .str "I"), ("c", .str "NETWORK"), ("ctx", .str "conn1"), ("id", .str "12345"),
      ("msg", .str "hello")]
    "I" "NETWORK" "conn1" "12345" "hello"
    ⟨rfl, rfl, rfl⟩ (by rfl) (by rfl) (by rfl) (by decide) (by rfl) (by rfl) (by rfl) (by rfl)
    (by rfl)
  match h.2 with
  | ⟨ev, hlog, hmsg, _, _, _, hI, _, _, hf⟩ => ⟨ev, hlog, hmsg.trans (by decide), hI rfl, hf⟩

/-! ## Numeric timestamps -/

/-- C10 fails on the code: for the record `{"ts":1700000000}`, whose timestamp
key holds an integer that `Int64()` converts without error,
`parseTimestampNode` reports failure, `parsedTime` keeps its old value and the
key `ts` is emitted as an integer field. -/
theorem numeric_timestamp_rejected :
    refEnv.nodeInt64 "1700000000" = (1700000000, Bool.true)
    ∧ parseTimestampNode refEnv (some (.number "1700000000")) = (Time.zero, Bool.false)
    ∧ refEnv.sonicGet "\x7b\"ts\":1700000000\x7d" = .ok (.object [("ts", .number "1700000000")])
    ∧ processLineJson refEnv { initState with parsedTime := timeUnix 5 }
        "\x7b\"ts\":1700000000\x7d"
      = ({ initState with
            parsedTime := timeUnix 5
            log := [⟨timeUnix 5, NoLevel, "", [("ts", Value.int64 1700000000)]⟩] },
          Bool.true) := by
  refine ⟨by decide, by decide, by rfl, by rfl⟩

/-! ## Stacktrace folding -/

theorem resolveMessage_buf_indep (r : Relogger) (x : String) (root : Node) (m : Bool)
    (ig : List String) :
    (resolveMessage { r with buf := x } root m ig).message = (resolveMessage r root m ig).message
    ∧ (resolveMessage { r with buf := x } root m ig).isMongoDBLogging
        = (resolveMessage r root m ig).isMongoDBLogging
    ∧ (resolveMessage { r with buf := x } root m ig).ignoreNodes
        = (resolveMessage r root m ig).ignoreNodes := by
  unfold resolveMessage mongoMessage
  repeat' split
  all_goals exact ⟨rfl, rfl, rfl⟩

theorem joinStacktrace_strings (strs : List String) :
    joinStacktrace (strs.map Node.str) = concatLines (strs.map fun x => x ++ "\n\t") := by
  induction strs with
  | nil => rfl
  | cons x rest ih =>
    simp only [List.map_cons, joinStacktrace, concatLines, nodeString, Option.getD_some, ih]

/-- C11 as stated fails: for `{"msg":"m","stack":["a","b"]}` the message ends
with the separator after the last element, so it is not the header followed
by `a` and `b` joined with the separator between them only. -/
theorem stacktrace_join_counterexample :
    refEnv.sonicGet "\x7b\"msg\":\"m\",\"stack\":[\"a\",\"b\"]\x7d"
      = .ok (.object [("msg", .str "m"), ("stack", .array [.str "a", .str "b"])])
    ∧ (processLineJson refEnv initState
        "\x7b\"msg\":\"m\",\"stack\":[\"a\",\"b\"]\x7d").1.log.map (fun ev => ev.message)
        = ["m\n\tSTACKTRACE\n\t==========\n\ta\n\tb\n\t"]
    ∧ "m\n\tSTACKTRACE\n\t==========\n\ta\n\tb\n\t"
        ≠ "m" ++ "\n\tSTACKTRACE\n\t==========\n\t" ++ ("a" ++ "\n\t" ++ "b") := by
  refine ⟨by rfl, by decide, by decide⟩

/-- C11 amended: for a JSON object record with resolved message `m` whose
matched stacktrace key holds an array of strings `s1, ..., sn`, the message
of the event is `m` followed by the header and by every `si` each followed
by the separator (the separator also follows the last element), and the
stacktrace key is not among the fields; the event is emitted whenever the
logger emits its level. -/
theorem stacktrace_array_folding (env : Env) (s : State) (b : String)
    (ms : List (String × Node)) (name : String) (strs : List String)
    (hparse : env.sonicGet (jsonInput s b) = .ok (.object ms))
    (hstack : findWithAnyName (emissionRoot env s.r (.object ms)) stacktraceNames
      = (name, some (.array (strs.map Node.str)))) :
    ∃ ev, (processLineJson env s b).1.log = s.log ++ logged ev
      ∧ ev.level = (resolveLevel env (.object ms)).1
      ∧ (withLevelEnabled (resolveLevel env (.object ms)).1 = Bool.true →
          (processLineJson env s b).1.log = s.log ++ [ev])
      ∧ ev.message = (messageStep env s.r (.object ms)).message
          ++ "\n\tSTACKTRACE\n\t==========\n\t"
          ++ concatLines (strs.map fun x => x ++ "\n\t")
      ∧ ∀ f ∈ ev.fields, f.1 ≠ name := by
  rw [processLineJson_object env s b ms hparse]
  obtain ⟨hm1, hm2, _⟩ := resolveMessage_buf_indep s.r "" (.object ms)
    (resolveLevel env (.object ms)).2.1 (resolveLevel env (.object ms)).2.2
  have hstack2 : findWithAnyName
      (unwrapAttr (.object ms) (resolveMessage { s.r with buf := "" } (.object ms)
        (resolveLevel env (.object ms)).2.1
        (resolveLevel env (.object ms)).2.2).isMongoDBLogging)
      ["stacktrace", "stack_trace", "stack"]
      = (name, some (.array (strs.map Node.str))) := by
    rw [hm2]; exact hstack
  refine ⟨objectEvent env { s with r := { s.r with buf := "" } } (.object ms),
    processObject_log_eq _ _ _, rfl, ?_, ?_, ?_⟩
  · intro hen
    show (processObject env _ _).log = _
    rw [processObject_log_eq, logged_enabled _ hen]
  · simp only [objectEvent, resolveStacktrace, hstack2, hm1, messageStep,
      joinStacktrace_strings]
  · intro f hf hfn
    have hni := emitFields_not_ignored env _ _ f hf
    simp only [resolveStacktrace, hstack2] at hni
    rw [hfn] at hni
    simp at hni

/-- C11 amended, on the record `{"msg":"m","stack":["a","b"]}`. -/
theorem stacktrace_array_folding_witness :
    ∃ ev, (processLineJson refEnv initState
        "\x7b\"msg\":\"m\",\"stack\":[\"a\",\"b\"]\x7d").1.log = initState.log ++ [ev]
      ∧ ev.message = "m\n\tSTACKTRACE\n\t==========\n\ta\n\tb\n\t"
      ∧ ∀ f ∈ ev.fields, f.1 ≠ "stack" :=
  match stacktrace_array_folding refEnv initState
      "\x7b\"msg\":\"m\",\"stack\":[\"a\",\"b\"]\x7d"
      [("msg", .str "m"), ("stack", .array [.str "a", .str "b"])] "stack" ["a", "b"]
      (by rfl) (by rfl) with
  | ⟨ev, _, _, hlog, hmsg, hf⟩ => ⟨ev, hlog (by decide), hmsg.trans (by decide), hf⟩

/-! ## The logfmt scan -/

theorem scanPair_eq (env : Env) (v : LogFmtScan) (pair : Pair) :
    scanPair env v pair =
      if !v.hasTimestamp && isTimestampKey pair.Key then
        if (parseTime env pair.Value).2 then
          { v with timestamp := (parseTime env pair.Value).1, hasTimestamp := Bool.true }
        else { v with fields := v.fields ++ [pair] }
      else if !v.hasLevel && isLevelKey pair.Key then
        { v with level := parseLevel env pair.Value, hasLevel := Bool.true }
      else if !v.hasMessage && isMessageKey pair.Key then
        { v with message := pair.Value, hasMessage := Bool.true }
      else { v with fields := v.fields ++ [pair] } := rfl

theorem key_classes_disjoint (k : String) :
    (isTimestampKey k = Bool.true → isLevelKey k = Bool.false ∧ isMessageKey k = Bool.false)
    ∧ (isLevelKey k = Bool.true → isMessageKey k = Bool.false) := by
  constructor
  · intro h
    simp only [isTimestampKey, Bool.or_eq_true, decide_eq_true_eq] at h
    rcases h with (((h | h) | h) | h) | h <;> subst h <;> decide
  · intro h
    simp only [isLevelKey, Bool.or_eq_true, decide_eq_true_eq] at h
    rcases h with (h | h) | h <;> subst h <;> decide

theorem eraseIf_cons (c : Bool) (q : Pair → Bool) (p : Pair) (l : List Pair) :
    eraseIf c q (p :: l) = if c && q p then l else p :: eraseIf c q l := by
  cases c <;> cases hq : q p <;> simp [eraseIf, List.eraseP_cons, hq]

theorem eraseIf_false (q : Pair → Bool) (l : List Pair) : eraseIf Bool.false q l = l := rfl

theorem scan_fields (env : Env) (pairs : List Pair) :
    ∀ v : LogFmtScan, (pairs.foldl (scanPair env) v).fields
      = v.fields ++ eraseIf (!v.hasMessage) (fun p => isMessageKey p.Key)
          (eraseIf (!v.hasLevel) (fun p => isLevelKey p.Key)
            (eraseIf (!v.hasTimestamp) (capturesTimestamp env) pairs)) := by
  induction pairs with
  | nil => intro v; simp [eraseIf]
  | cons p rest ih =>
    intro v
    rw [List.foldl_cons, ih, scanPair_eq]
    obtain ⟨hd1, hd2⟩ := key_classes_disjoint p.Key
    obtain ⟨vt, vhT, vl, vhL, vm, vhM, vf⟩ := v
    simp only [eraseIf_cons, capturesTimestamp]
    rcases Bool.eq_false_or_eq_true (isTimestampKey p.Key) with hT | hT
      <;> rcases Bool.eq_false_or_eq_true (isLevelKey p.Key) with hL | hL
      <;> rcases Bool.eq_false_or_eq_true (isMessageKey p.Key) with hM | hM
      <;> rcases Bool.eq_false_or_eq_true (parseTime env p.Value).2 with hP | hP
      <;> cases vhT <;> cases vhL <;> cases vhM
      <;> simp_all [eraseIf_false, eraseIf_cons]

theorem scanPair_count (env : Env) (v : LogFmtScan) (p : Pair) :
    scanCount (scanPair env v p) = scanCount v + 1 := by
  rw [scanPair_eq]
  obtain ⟨vt, vhT, vl, vhL, vm, vhM, vf⟩ := v
  rcases Bool.eq_false_or_eq_true (isTimestampKey p.Key) with hT | hT
    <;> rcases Bool.eq_false_or_eq_true (isLevelKey p.Key) with hL | hL
    <;> rcases Bool.eq_false_or_eq_true (isMessageKey p.Key) with hM | hM
    <;> rcases Bool.eq_false_or_eq_true (parseTime env p.Value).2 with hP | hP
    <;> cases vhT <;> cases vhL <;> cases vhM
    <;> simp [scanCount, hT, hL, hM, hP]

theorem scan_count (env : Env) (pairs : List Pair) :
    ∀ v : LogFmtScan, scanCount (pairs.foldl (scanPair env) v) = scanCount v + pairs.length := by
  induction pairs with
  | nil => intro v; simp
  | cons p rest ih =>
    intro v
    rw [List.foldl_cons, ih, scanPair_count, List.length_cons]
    omega

theorem scan_timestamp (env : Env) (pairs : List Pair) :
    ∀ v : LogFmtScan,
      (pairs.foldl (scanPair env) v).hasTimestamp
          = (v.hasTimestamp || (pairs.find? (capturesTimestamp env)).isSome)
      ∧ (pairs.foldl (scanPair env) v).timestamp
          = if v.hasTimestamp then v.timestamp
            else match pairs.find? (capturesTimestamp env) with
              | some p => (parseTime env p.Value).1
              | none => v.timestamp := by
  induction pairs with
  | nil => intro v; simp
  | cons p rest ih =>
    intro v
    rw [List.foldl_cons, (ih _).1, (ih _).2, scanPair_eq]
    obtain ⟨hd1, hd2⟩ := key_classes_disjoint p.Key
    obtain ⟨vt, vhT, vl, vhL, vm, vhM, vf⟩ := v
    simp only [List.find?_cons, capturesTimestamp]
    rcases Bool.eq_false_or_eq_true (isTimestampKey p.Key) with hT | hT
      <;> rcases Bool.eq_false_or_eq_true (isLevelKey p.Key) with hL | hL
      <;> rcases Bool.eq_false_or_eq_true (isMessageKey p.Key) with hM | hM
      <;> rcases Bool.eq_false_or_eq_true (parseTime env p.Value).2 with hP | hP
      <;> cases vhT <;> cases vhL <;> cases vhM
      <;> simp_all

theorem scan_level (env : Env) (pairs : List Pair) :
    ∀ v : LogFmtScan,
      (pairs.foldl (scanPair env) v).level
          = if v.hasLevel then v.level
            else match pairs.find? (fun p => isLevelKey p.Key) with
              | some p => parseLevel env p.Value
              | none => v.level := by
  induction pairs with
  | nil => intro v; simp
  | cons p rest ih =>
    intro v
    rw [List.foldl_cons, ih, scanPair_eq]
    obtain ⟨hd1, hd2⟩ := key_classes_disjoint p.Key
    obtain ⟨vt, vhT, vl, vhL, vm, vhM, vf⟩ := v
    simp only [List.find?_cons]
    rcases Bool.eq_false_or_eq_true (isTimestampKey p.Key) with hT | hT
      <;> rcases Bool.eq_false_or_eq_true (isLevelKey p.Key) with hL | hL
      <;> rcases Bool.eq_false_or_eq_true (isMessageKey p.Key) with hM | hM
      <;> rcases Bool.eq_false_or_eq_true (parseTime env p.Value).2 with hP | hP
      <;> cases vhT <;> cases vhL <;> cases vhM
      <;> simp_all

theorem scan_message (env : Env) (pairs : List Pair) :
    ∀ v : LogFmtScan,
      (pairs.foldl (scanPair env) v).message
          = if v.hasMessage then v.message
            else match pairs.find? (fun p => isMessageKey p.Key) with
              | some p => p.Value
              | none => v.message := by
  induction pairs with
  | nil => intro v; simp
  | cons p rest ih =>
    intro v
    rw [List.foldl_cons, ih, scanPair_eq]
    obtain ⟨hd1, hd2⟩ := key_classes_disjoint p.Key
    obtain ⟨vt, vhT, vl, vhL, vm, vhM, vf⟩ := v
    simp only [List.find?_cons]
    rcases Bool.eq_false_or_eq_true (isTimestampKey p.Key) with hT | hT
      <;> rcases Bool.eq_false_or_eq_true (isLevelKey p.Key) with hL | hL
      <;> rcases Bool.eq_false_or_eq_true (isMessageKey p.Key) with hM | hM
      <;> rcases Bool.eq_false_or_eq_true (parseTime env p.Value).2 with hP | hP
      <;> cases vhT <;> cases vhL <;> cases vhM
      <;> simp_all

theorem coercePair_key (env : Env) (pair : Pair) : (coercePair env pair).1 = pair.Key := by
  unfold coercePair
  repeat' split
  all_goals rfl

theorem scanPairs_fields (env : Env) (pairs : List Pair) :
    (scanPairs env pairs).fields = logfmtResidual env pairs := by
  unfold scanPairs
  rw [scan_fields]
  simp [eraseIf, logfmtResidual]

theorem scanPairs_handled (env : Env) (pairs : List Pair) :
    ((scanPairs env pairs).fields.length = 0 && !(scanPairs env pairs).hasMessage
        && !(scanPairs env pairs).hasLevel && !(scanPairs env pairs).hasTimestamp) = Bool.true
      ↔ pairs = [] := by
  have hc := scan_count env pairs
    { timestamp := Time.zero, hasTimestamp := Bool.false, level := NoLevel,
      hasLevel := Bool.false, message := "", hasMessage := Bool.false, fields := [] }
  change scanCount (scanPairs env pairs) = _ at hc
  simp only [scanCount, List.length_nil, Bool.toNat_false, zero_add] at hc
  constructor
  · intro h
    simp only [Bool.and_eq_true, decide_eq_true_eq, Bool.not_eq_true'] at h
    obtain ⟨⟨⟨h1, h2⟩, h3⟩, h4⟩ := h
    rw [h1, h2, h3, h4] at hc
    simp at hc
    exact List.length_eq_zero.mp hc.symm
  · intro h
    subst h
    rfl

theorem processLineLogFmt_handled_eq (env : Env) (s : State) (b : String)
    (pairs : List Pair) (hdec : env.logfmtDecode b = some pairs) (hne : pairs ≠ []) :
    processLineLogFmt env s b
      = ({ s with
            parsedTime := (logfmtEvent env pairs).timestamp
            log := s.log ++ logged (logfmtEvent env pairs) }, Bool.true) := by
  have hh : ¬ ((scanPairs env pairs).fields.length = 0 && !(scanPairs env pairs).hasMessage
        && !(scanPairs env pairs).hasLevel && !(scanPairs env pairs).hasTimestamp) = Bool.true :=
    fun h => hne ((scanPairs_handled env pairs).mp h)
  unfold processLineLogFmt
  rw [hdec]
  dsimp only
  rw [if_neg hh]
  rfl

theorem logfmtEvent_level (env : Env) (pairs : List Pair) :
    (logfmtEvent env pairs).level
      = (match pairs.find? (fun p => isLevelKey p.Key) with
          | some p => parseLevel env p.Value
          | none => NoLevel) := by
  have hl := scan_level env pairs
    { timestamp := Time.zero, hasTimestamp := Bool.false, level := NoLevel,
      hasLevel := Bool.false, message := "", hasMessage := Bool.false, fields := [] }
  change (scanPairs env pairs).level = _ at hl
  show (scanPairs env pairs).level = _
  simpa using hl

theorem logfmtEvent_message (env : Env) (pairs : List Pair) :
    (logfmtEvent env pairs).message
      = (match pairs.find? (fun p => isMessageKey p.Key) with
          | some p => p.Value
          | none => "") := by
  have hm := scan_message env pairs
    { timestamp := Time.zero, hasTimestamp := Bool.false, level := NoLevel,
      hasLevel := Bool.false, message := "", hasMessage := Bool.false, fields := [] }
  change (scanPairs env pairs).message = _ at hm
  show (scanPairs env pairs).message = _
  simpa using hm

theorem logfmtEvent_timestamp (env : Env) (pairs : List Pair) :
    (logfmtEvent env pairs).timestamp
      = (match pairs.find? (capturesTimestamp env) with
          | some p => (parseTime env p.Value).1
          | none => Time.zero) := by
  have hts := scan_timestamp env pairs
    { timestamp := Time.zero, hasTimestamp := Bool.false, level := NoLevel,
      hasLevel := Bool.false, message := "", hasMessage := Bool.false, fields := [] }
  change (scanPairs env pairs).hasTimestamp = _ ∧ (scanPairs env pairs).timestamp = _ at hts
  show (if (scanPairs env pairs).hasTimestamp then (scanPairs env pairs).timestamp
    else Time.zero) = _
  rw [hts.1, hts.2]
  cases hf : pairs.find? (capturesTimestamp env) <;> simp

theorem logfmtEvent_fields (env : Env) (pairs : List Pair) :
    (logfmtEvent env pairs).fields = (logfmtResidual env pairs).map (coercePair env) := by
  show (scanPairs env pairs).fields.map (coercePair env) = _
  rw [scanPairs_fields]

/-- C12: for every decoded, non-empty list of pairs `processLineLogFmt` builds
one event whose fields are, in input order, the pairs left after removing
the first pair with a timestamp alias and a value that parses, the first
pair with a level alias and the first pair with a message alias; at most
three pairs are removed, and the level and the message of the event come from
the removed pairs; the event is emitted whenever the logger emits its
level. -/
theorem logfmt_capture_and_residual (env : Env) (s : State) (b : String) (pairs : List Pair)
    (hdec : env.logfmtDecode b = some pairs) (hne : pairs ≠ []) :
    (processLineLogFmt env s b).2 = Bool.true
    ∧ ∃ ev, (processLineLogFmt env s b).1.log = s.log ++ logged ev
      ∧ (withLevelEnabled ev.level = Bool.true →
          (processLineLogFmt env s b).1.log = s.log ++ [ev])
      ∧ ev.fields = (logfmtResidual env pairs).map (coercePair env)
      ∧ ev.fields.map Prod.fst = (logfmtResidual env pairs).map Pair.Key
      ∧ pairs.length ≤ (logfmtResidual env pairs).length + 3
      ∧ ev.level = (match pairs.find? (fun p => isLevelKey p.Key) with
          | some p => parseLevel env p.Value
          | none => NoLevel)
      ∧ ev.message = (match pairs.find? (fun p => isMessageKey p.Key) with
          | some p => p.Value
          | none => "") := by
  have hc := scan_count env pairs
    { timestamp := Time.zero, hasTimestamp := Bool.false, level := NoLevel,
      hasLevel := Bool.false, message := "", hasMessage := Bool.false, fields := [] }
  change scanCount (scanPairs env pairs) = _ at hc
  simp only [scanCount, List.length_nil, Bool.toNat_false, zero_add, scanPairs_fields] at hc
  rw [processLineLogFmt_handled_eq env s b pairs hdec hne]
  refine ⟨rfl, logfmtEvent env pairs, rfl, ?_, logfmtEvent_fields env pairs, ?_, ?_,
    logfmtEvent_level env pairs, logfmtEvent_message env pairs⟩
  · intro hen
    simp only [logged_enabled _ hen]
  · rw [logfmtEvent_fields, List.map_map]
    apply List.map_congr_left
    intro p _
    exact coercePair_key env p
  · have h1 := Bool.toNat_le (scanPairs env pairs).hasTimestamp
    have h2 := Bool.toNat_le (scanPairs env pairs).hasLevel
    have h3 := Bool.toNat_le (scanPairs env pairs).hasMessage
    omega

/-- C12 on the pairs of `level=info msg=hi a=1 level=debug`: the first `level`
and `msg` are captured, `a` and the second `level` stay, in this order. -/
theorem logfmt_capture_and_residual_witness :
    ∃ ev, (processLineLogFmt refEnv initState "level=info msg=hi a=1 level=debug").1.log
        = initState.log ++ [ev]
      ∧ ev.fields.map Prod.fst = ["a", "level"]
      ∧ ev.message = "hi" :=
  match (logfmt_capture_and_residual refEnv initState "level=info msg=hi a=1 level=debug"
      [⟨"level", "info"⟩, ⟨"msg", "hi"⟩, ⟨"a", "1"⟩, ⟨"level", "debug"⟩]
      (by decide) (by decide)).2 with
  | ⟨ev, _, hlog, _, hkeys, _, hlevel, hmsg⟩ =>
    ⟨ev, hlog (by rw [hlevel]; decide), hkeys.trans (by decide), hmsg.trans (by decide)⟩

/-- C13: the coercion of a residual logfmt pair never fails and follows the
precedence integer, float, boolean literal, string; the pair `n=7` gives the
integer field 7 and, as `true` is not a float, `ok=true` gives the boolean
field true; the fields of the event are the coerced residual pairs. -/
theorem logfmt_value_coercion (env : Env) (pair : Pair) :
    (∀ i, strconvParseInt pair.Value = some i →
      coercePair env pair = (pair.Key, Value.int64 i))
    ∧ (strconvParseInt pair.Value = none → ∀ f, env.parseFloat pair.Value = some f →
      coercePair env pair = (pair.Key, Value.float64 f))
    ∧ (strconvParseInt pair.Value = none → env.parseFloat pair.Value = none →
      pair.Value = "true" → coercePair env pair = (pair.Key, Value.bool Bool.true))
    ∧ (strconvParseInt pair.Value = none → env.parseFloat pair.Value = none →
      pair.Value = "false" → coercePair env pair = (pair.Key, Value.bool Bool.false))
    ∧ (strconvParseInt pair.Value = none → env.parseFloat pair.Value = none →
      pair.Value ≠ "true" → pair.Value ≠ "false" →
      coercePair env pair = (pair.Key, Value.str pair.Value))
    ∧ coercePair env ⟨"n", "7"⟩ = ("n", Value.int64 7)
    ∧ (env.parseFloat "true" = none →
      coercePair env ⟨"ok", "true"⟩ = ("ok", Value.bool Bool.true))
    ∧ (∀ (s : State) (b : String) (pairs : List Pair),
      env.logfmtDecode b = some pairs → pairs ≠ [] →
      ∃ ev, (processLineLogFmt env s b).1.log = s.log ++ logged ev
        ∧ ev.fields = (logfmtResidual env pairs).map (coercePair env))
    ∧ (processLine refEnv initState "n=7 ok=true").log
        = [⟨Time.zero, NoLevel, "", [("n", Value.int64 7), ("ok", Value.bool Bool.true)]⟩] := by
  refine ⟨?_, ?_, ?_, ?_, ?_, ?_, ?_, ?_, ?_⟩
  · intro i hi
    simp [coercePair, hi]
  · intro hi f hf
    simp [coercePair, hi, hf]
  · intro hi hf ht
    unfold coercePair
    rw [hi, hf]
    simp [ht]
  · intro hi hf ht
    unfold coercePair
    rw [hi, hf]
    simp [ht]
  · intro hi hf ht hfa
    simp [coercePair, hi, hf, ht, hfa]
  · have h7 : strconvParseInt "7" = some 7 := by decide
    simp [coercePair, h7]
  · intro hf
    have ht : strconvParseInt "true" = none := by decide
    simp [coercePair, ht, hf]
  · intro s b pairs hdec hne
    rw [processLineLogFmt_handled_eq env s b pairs hdec hne]
    exact ⟨logfmtEvent env pairs, rfl, logfmtEvent_fields env pairs⟩
  · rfl

theorem processLineLogFmt_unhandled_iff (env : Env) (s : State) (b : String) :
    (processLineLogFmt env s b).2 = Bool.false
      ↔ (env.logfmtDecode b = none ∨ env.logfmtDecode b = some []) := by
  unfold processLineLogFmt
  cases hdec : env.logfmtDecode b with
  | none => simp
  | some pairs =>
    dsimp only
    by_cases hc : ((scanPairs env pairs).fields.length = 0 && !(scanPairs env pairs).hasMessage
        && !(scanPairs env pairs).hasLevel && !(scanPairs env pairs).hasTimestamp) = Bool.true
    · have hnil := (scanPairs_handled env pairs).mp hc
      rw [if_pos hc]
      simp [hnil]
    · have hne : pairs ≠ [] := fun h => hc ((scanPairs_handled env pairs).mpr h)
      rw [if_neg hc]
      simp [hne]

/-- C18 as stated fails: the line `level=disabled msg=m` decodes to two pairs and
`processLineLogFmt` reports handled, yet no event is emitted, because
`log.WithLevel` returns nil for the level `disabled`. -/
theorem logfmt_disabled_counterexample :
    refEnv.logfmtDecode "level=disabled msg=m"
        = some [⟨"level", "disabled"⟩, ⟨"msg", "m"⟩]
    ∧ (processLineLogFmt refEnv initState "level=disabled msg=m").2 = Bool.true
    ∧ (processLineLogFmt refEnv initState "level=disabled msg=m").1.log = []
    ∧ ¬ ∃ ev, (processLineLogFmt refEnv initState "level=disabled msg=m").1.log
        = initState.log ++ [ev] := by
  have hlog : (processLineLogFmt refEnv initState "level=disabled msg=m").1.log = [] := by rfl
  refine ⟨by decide, by decide, hlog, ?_⟩
  rintro ⟨ev, hev⟩
  rw [hlog] at hev
  have := congrArg List.length hev
  simp [initState] at this

/-- C18 amended: `processLineLogFmt` reports unhandled, without an event, exactly
when decoding yields no pair (no record at all, or a record without pairs);
otherwise it reports handled and builds one event, which is emitted, exactly
one event, when the logger emits its level (the level of the first pair with
a level alias, else none) and dropped when it does not (level `disabled`, or
a level below trace); `parsedTime` is then the timestamp of the first pair
that can be captured as one, or the zero instant when there is no such
pair. -/
theorem logfmt_handled_iff (env : Env) (s : State) (b : String) :
    ((processLineLogFmt env s b).2 = Bool.false
      ↔ (env.logfmtDecode b = none ∨ env.logfmtDecode b = some []))
    ∧ ((processLineLogFmt env s b).2 = Bool.false → (processLineLogFmt env s b).1.log = s.log)
    ∧ ((processLineLogFmt env s b).2 = Bool.true →
      ∃ ev pairs, env.logfmtDecode b = some pairs ∧ pairs ≠ []
        ∧ (processLineLogFmt env s b).1.log = s.log ++ logged ev
        ∧ ev.level = (match pairs.find? (fun p => isLevelKey p.Key) with
            | some p => parseLevel env p.Value
            | none => NoLevel)
        ∧ (withLevelEnabled ev.level = Bool.true →
            (processLineLogFmt env s b).1.log = s.log ++ [ev])
        ∧ (withLevelEnabled ev.level = Bool.false →
            (processLineLogFmt env s b).1.log = s.log)
        ∧ (processLineLogFmt env s b).1.parsedTime
            = (match pairs.find? (capturesTimestamp env) with
              | some p => (parseTime env p.Value).1
              | none => Time.zero)
        ∧ ev.timestamp = (processLineLogFmt env s b).1.parsedTime) := by
  refine ⟨processLineLogFmt_unhandled_iff env s b, ?_, ?_⟩
  · intro h
    rcases processLineLogFmt_log env s b with ⟨_, hl⟩ | ⟨h2, _⟩
    · exact hl
    · rw [h] at h2; exact absurd h2 (by decide)
  · intro h
    cases hdec : env.logfmtDecode b with
    | none =>
      have := (processLineLogFmt_unhandled_iff env s b).mpr (Or.inl hdec)
      rw [h] at this; exact absurd this (by decide)
    | some pairs =>
      have hne : pairs ≠ [] := by
        intro hnil
        have := (processLineLogFmt_unhandled_iff env s b).mpr (Or.inr (by rw [hdec, hnil]))
        rw [h] at this; exact absurd this (by decide)
      rw [processLineLogFmt_handled_eq env s b pairs hdec hne]
      refine ⟨logfmtEvent env pairs, pairs, rfl, hne, rfl, logfmtEvent_level env pairs,
        ?_, ?_, logfmtEvent_timestamp env pairs, rfl⟩
      · intro hen
        simp only [logged_enabled _ hen]
      · intro hdis
        simp only [logged_disabled _ hdis, List.append_nil]

/-- C18 amended, on the line `level=info msg=hi a=1 level=debug`, which holds no
timestamp: handled, and `parsedTime` is reset to the zero instant. -/
theorem logfmt_handled_iff_witness :
    (processLineLogFmt refEnv { initState with parsedTime := timeUnix 1700000000 }
        "level=info msg=hi a=1 level=debug").2 = Bool.true
    ∧ (processLineLogFmt refEnv { initState with parsedTime := timeUnix 1700000000 }
        "level=info msg=hi a=1 level=debug").1.parsedTime = Time.zero :=
  have h := (logfmt_handled_iff refEnv { initState with parsedTime := timeUnix 1700000000 }
      "level=info msg=hi a=1 level=debug").2.2 (by decide)
  match h with
  | ⟨_, pairs, hdec, _, _, _, _, _, htime, _⟩ =>
    ⟨by decide, by
      have hp : pairs = [⟨"level", "info"⟩, ⟨"msg", "hi"⟩, ⟨"a", "1"⟩, ⟨"level", "debug"⟩] := by
        have h2 : refEnv.logfmtDecode "level=info msg=hi a=1 level=debug"
            = some [⟨"level", "info"⟩, ⟨"msg", "hi"⟩, ⟨"a", "1"⟩, ⟨"level", "debug"⟩] := by
          decide
        rw [h2] at hdec
        exact (Option.some.inj hdec).symm
      rw [htime, hp]
      decide⟩

/-! ## The raw path and the pending buffer -/

theorem processLineJson_incomplete (env : Env) (s : State) (b err : String)
    (h : env.sonicGet (jsonInput s b) = .error err) (he : isSonicEOFErr err = Bool.true) :
    processLineJson env s b
      = ({ s with r := { s.r with buf := s.r.buf ++ b } }, Bool.true) := by
  unfold processLineJson
  simp only [h, he, if_true]
  by_cases hl : len s.r.buf > 0
  · have : len (s.r.buf ++ b) ≠ 0 := by rw [len_append]; omega
    simp [hl, this]
  · have h0 : len s.r.buf = 0 := by omega
    have hb := (len_eq_zero_iff _).mp h0
    have e0 : len "" = 0 := rfl
    simp [jsonInput_eq, hb, e0]

theorem processLineJson_unhandled (env : Env) (s : State) (b : String)
    (h : (processLineJson env s b).2 = Bool.false) :
    processLineJson env s b = ({ s with r := { s.r with buf := "" } }, Bool.false) := by
  cases hg : env.sonicGet (jsonInput s b) with
  | error err =>
    cases he : isSonicEOFErr err with
    | true =>
      unfold processLineJson at h
      simp [hg, he] at h
    | false => exact processLineJson_malformed env s b err hg he
  | ok root =>
    by_cases ht : nodeType root = ValueType.V_OBJECT
    · unfold processLineJson at h
      simp [hg, ht] at h
    · exact processLineJson_nonobject env s b root hg ht

theorem processLine_fallback (env : Env) (s : State) (b : String)
    (h : (processLineJson env s b).2 = Bool.false) :
    processLine env s b = fallbackStages env { s with r := { s.r with buf := "" } } b := by
  have hj := processLineJson_unhandled env s b h
  simp only [processLine, fallbackStages, hj]
  simp

/-- C15 as stated fails: on the line `== start ==` both stages report
unhandled and the raw event is emitted, but `parsedTime`, which held the
instant 1700000000, is the zero instant after the call. -/
theorem raw_path_counterexample :
    (processLineJson refEnv { initState with parsedTime := timeUnix 1700000000 }
        "== start ==").2 = Bool.false
    ∧ (processLineLogFmt refEnv
        (processLineJson refEnv { initState with parsedTime := timeUnix 1700000000 }
          "== start ==").1 "== start ==").2 = Bool.false
    ∧ (processLine refEnv { initState with parsedTime := timeUnix 1700000000 }
        "== start ==").log = [⟨Time.zero, NoLevel, "== start ==", []⟩]
    ∧ (processLine refEnv { initState with parsedTime := timeUnix 1700000000 }
        "== start ==").parsedTime = Time.zero
    ∧ Time.zero ≠ timeUnix 1700000000 := by
  refine ⟨by decide, by decide, by rfl, by decide, by decide⟩

/-- C15 amended: when both stages report unhandled, `processLine` emits the raw
event (level none, the verbatim line, no fields); `parsedTime` after the call
equals `parsedTime` before it only if the logfmt decoder found no record at
all; if it found a record without pairs, `processLineLogFmt` has reset
`parsedTime`, which is the zero instant after the call. -/
theorem raw_path_time_cell (env : Env) (s : State) (b : String)
    (hj : (processLineJson env s b).2 = Bool.false)
    (hl : (processLineLogFmt env (processLineJson env s b).1 b).2 = Bool.false) :
    (processLine env s b).log
        = s.log ++ [⟨(processLine env s b).parsedTime, NoLevel, b, []⟩]
    ∧ (env.logfmtDecode b = none ∨ env.logfmtDecode b = some [])
    ∧ (env.logfmtDecode b = none → (processLine env s b).parsedTime = s.parsedTime)
    ∧ (env.logfmtDecode b = some [] → (processLine env s b).parsedTime = Time.zero) := by
  have hju := processLineJson_unhandled env s b hj
  rw [hju] at hl
  have hcases := (processLineLogFmt_unhandled_iff env { s with r := { s.r with buf := "" } } b).mp hl
  have hp : processLine env s b
      = State.emit (processLineLogFmt env { s with r := { s.r with buf := "" } } b).1
          NoLevel [] b := by
    simp [processLine, hju, hl]
  refine ⟨?_, hcases, ?_, ?_⟩
  · rw [hp]
    rcases hcases with hd | hd
    · simp [processLineLogFmt, hd, State.emit, logged_NoLevel]
    · simp [processLineLogFmt, hd, State.emit, scanPairs, logged_NoLevel]
  · intro hd
    rw [hp]
    simp [processLineLogFmt, hd, State.emit]
  · intro hd
    rw [hp]
    simp [processLineLogFmt, hd, State.emit, scanPairs]

/-- C15 amended, on the line `=oops`: a record without pairs, so `parsedTime`
is reset. -/
theorem raw_path_time_cell_witness :
    (processLine refEnv { initState with parsedTime := timeUnix 1700000000 } "=oops").log
        = initState.log ++ [⟨(processLine refEnv
            { initState with parsedTime := timeUnix 1700000000 } "=oops").parsedTime,
            NoLevel, "=oops", []⟩]
    ∧ (processLine refEnv { initState with parsedTime := timeUnix 1700000000 }
        "=oops").parsedTime = Time.zero :=
  have h := raw_path_time_cell refEnv { initState with parsedTime := timeUnix 1700000000 }
    "=oops" (by decide) (by decide)
  ⟨h.1, h.2.2.2 (by decide)⟩

/-- C19: after `processLineJson` the pending buffer is `B ++ l` when the parser
reports `B ++ l` as incomplete and empty in every other case; on a
structural error the call reports unhandled and `processLine` continues with
the logfmt and raw stages on the line `l` alone, from a state with an empty
buffer, emitting at most one event: the buffered lines are dropped. -/
theorem pending_buffer_transition (env : Env) (s : State) (l : String) :
    (jsonIncomplete env s l = Bool.true → (processLineJson env s l).1.r.buf = s.r.buf ++ l)
    ∧ (jsonIncomplete env s l = Bool.false → (processLineJson env s l).1.r.buf = "")
    ∧ (∀ err, env.sonicGet (s.r.buf ++ l) = .error err → isSonicEOFErr err = Bool.false →
        (processLineJson env s l).2 = Bool.false
        ∧ processLine env s l = fallbackStages env { s with r := { s.r with buf := "" } } l
        ∧ ((processLine env s l).log = s.log
            ∨ ∃ ev, (processLine env s l).log = s.log ++ [ev])
        ∧ (processLine env s l).r.buf = "") := by
  refine ⟨?_, ?_, ?_⟩
  · intro hi
    unfold jsonIncomplete at hi
    cases hg : env.sonicGet (jsonInput s l) with
    | error err =>
      rw [hg] at hi
      have hi2 : isSonicEOFErr err = Bool.true := hi
      rw [processLineJson_incomplete env s l err hg hi2]
    | ok root => rw [hg] at hi; simp at hi
  · intro hi
    unfold jsonIncomplete at hi
    cases hg : env.sonicGet (jsonInput s l) with
    | error err =>
      rw [hg] at hi
      rw [processLineJson_malformed env s l err hg hi]
    | ok root =>
      by_cases ht : nodeType root = ValueType.V_OBJECT
      · cases root with
        | object ms =>
          rw [processLineJson_object env s l ms hg, processObject_buf]
        | _ => simp [nodeType] at ht
      · rw [processLineJson_nonobject env s l root hg ht]
  · intro err hg he
    have hg2 : env.sonicGet (jsonInput s l) = .error err := by rw [jsonInput_eq]; exact hg
    have hj := processLineJson_malformed env s l err hg2 he
    have h2 : (processLineJson env s l).2 = Bool.false := by rw [hj]
    exact ⟨h2, processLine_fallback env s l h2, (processLine_unhandled env s l hj).1,
      (processLine_unhandled env s l hj).2⟩

/-- C19 with the buffer `{"msg":` and the line `oops`: the concatenation is
malformed, the buffer is cleared and one event is emitted for `oops`. -/
theorem pending_buffer_transition_witness :
    (processLineJson refEnv { initState with r := { initState.r with buf := "\x7b\"msg\":" } }
        "oops").2 = Bool.false
    ∧ (processLine refEnv { initState with r := { initState.r with buf := "\x7b\"msg\":" } }
        "oops").r.buf = "" :=
  have h := (pending_buffer_transition refEnv
      { initState with r := { initState.r with buf := "\x7b\"msg\":" } } "oops").2.2
    "\"Syntax error at index 0: invalid char" (by rfl) (by decide)
  ⟨h.1, h.2.2.2⟩

/-! ## Generic emission -/

theorem emitFields_eq_fieldsOf (env : Env) (excluded : List String)
    (members : List (String × Node)) :
    emitFields env excluded members = fieldsOf env excluded members := by
  induction members with
  | nil => rfl
  | cons m rest ih =>
    obtain ⟨key, node⟩ := m
    simp only [emitFields, fieldsOf, List.filter_cons]
    cases hk : excluded.contains key with
    | true =>
      simp only [↓reduceIte, Bool.not_true, Bool.false_eq_true]
      exact ih
    | false =>
      simp only [Bool.false_eq_true, ↓reduceIte, Bool.not_false, List.map_cons]
      rw [ih]
      rfl

theorem resolveMessage_ignore (r : Relogger) (root : Node) (mongo : Bool)
    (ig : List String) :
    (resolveMessage r root mongo ig).ignoreNodes = ig ++ matchedMessageKey root := by
  unfold resolveMessage matchedMessageKey mongoMessage
  rcases findWithAnyName root ["message", "msg"] with ⟨name, _ | node⟩
  · simp
  · cases hn : nodeString node with
    | none => simp [hn]
    | some str =>
      cases mongo
      · simp [hn]
      · simp only [hn, ↓reduceIte, Option.isSome_some]
        split <;> rfl

theorem resolveTimestamp_ignore (env : Env) (root : Node) (mongo : Bool) (t : Time)
    (ig : List String) :
    (resolveTimestamp env root mongo t ig).2 = ig ++ matchedTimestampKey env root := by
  unfold resolveTimestamp matchedTimestampKey timestampNames
  dsimp only
  split_ifs <;> simp

theorem resolveStacktrace_ignore (node : Node) (message : String) (ig : List String) :
    (resolveStacktrace node message ig).2 = ig ++ matchedStacktraceKey node := by
  unfold resolveStacktrace matchedStacktraceKey stacktraceNames
  rcases findWithAnyName node ["stacktrace", "stack_trace", "stack"] with ⟨name, _ | st⟩
  · simp
  · cases st <;> simp

/-- The event `processLineJson` builds for an object: its fields are those of the
members of the emission root whose key is not excluded. -/
theorem processLineJson_fields (env : Env) (s : State) (b : String)
    (ms : List (String × Node))
    (hparse : env.sonicGet (jsonInput s b) = .ok (.object ms)) :
    ∃ ev, (processLineJson env s b).1.log = s.log ++ logged ev
      ∧ ev.level = (resolveLevel env (.object ms)).1
      ∧ ev.fields = fieldsOf env (excludedKeys env s.r (.object ms))
          (nodeMembers (emissionRoot env s.r (.object ms))) := by
  rw [processLineJson_object env s b ms hparse]
  refine ⟨objectEvent env { s with r := { s.r with buf := "" } } (.object ms),
    processObject_log_eq _ _ _, rfl, ?_⟩
  obtain ⟨_, hm2, hm3⟩ := resolveMessage_buf_indep s.r "" (.object ms)
    (resolveLevel env (.object ms)).2.1 (resolveLevel env (.object ms)).2.2
  simp only [objectEvent, emitFields_eq_fieldsOf, resolveStacktrace_ignore,
    resolveTimestamp_ignore, hm2, hm3, resolveMessage_ignore, excludedKeys, emissionRoot,
    messageStep]

/-- C14 as stated fails: for a MongoDB record with an `attr` member the fields
are made of the members of `attr`, not of the top-level members whose keys
were not excluded (`c`, `ctx`, `id` and `attr` here). -/
theorem generic_emission_counterexample :
    refEnv.sonicGet "\x7b\"s\":\"I\",\"c\":\"N\",\"ctx\":\"x\",\"id\":\"1\",\"msg\":\"hello\",\"attr\":\x7b\"a\":1,\"msg\":\"inner\"\x7d\x7d"
      = .ok (.object [("s", .str "I"), ("c", .str "N"), ("ctx", .str "x"), ("id", .str "1"),
        ("msg", .str "hello"), ("attr", .object [("a", .number "1"), ("msg", .str "inner")])])
    ∧ (processLineJson refEnv initState "\x7b\"s\":\"I\",\"c\":\"N\",\"ctx\":\"x\",\"id\":\"1\",\"msg\":\"hello\",\"attr\":\x7b\"a\":1,\"msg\":\"inner\"\x7d\x7d").1.log.map
        (fun ev => ev.fields.map Prod.fst) = [["a"]]
    ∧ (fieldsOf refEnv (excludedKeys refEnv initState.r (.object [("s", .str "I"), ("c", .str "N"), ("ctx", .str "x"), ("id", .str "1"),
        ("msg", .str "hello"), ("attr", .object [("a", .number "1"), ("msg", .str "inner")])]))
        (nodeMembers (.object [("s", .str "I"), ("c", .str "N"), ("ctx", .str "x"), ("id", .str "1"),
        ("msg", .str "hello"), ("attr", .object [("a", .number "1"), ("msg", .str "inner")])]))).map Prod.fst = ["c", "ctx", "id", "attr"] := by
  refine ⟨by rfl, by decide, by decide⟩

/-- C14 amended: for every JSON object record the emitted fields are exactly the
members whose keys were not excluded, in document order, of the record
itself, or of the value of `attr` when MongoDB mode is active and the record
has an `attr` member; null, booleans, strings, arrays and objects keep their
JSON type, and a number becomes an Int64 if its literal parses as one,
otherwise a Float64 if it parses as a float, otherwise the literal as a
string; `42` gives an integer field and `3.5` a floating-point one; the event
is emitted whenever the logger emits its level. -/
theorem json_generic_emission (env : Env) (s : State) (b : String)
    (ms : List (String × Node))
    (hparse : env.sonicGet (jsonInput s b) = .ok (.object ms)) :
    (∃ ev, (processLineJson env s b).1.log = s.log ++ logged ev
      ∧ ev.level = (resolveLevel env (.object ms)).1
      ∧ (withLevelEnabled (resolveLevel env (.object ms)).1 = Bool.true →
          (processLineJson env s b).1.log = s.log ++ [ev])
      ∧ ev.fields = fieldsOf env (excludedKeys env s.r (.object ms))
          (nodeMembers (emissionRoot env s.r (.object ms)))
      ∧ (((messageStep env s.r (.object ms)).isMongoDBLogging = Bool.false
            ∨ lookupKey "attr" ms = none) →
          ev.fields = fieldsOf env (excludedKeys env s.r (.object ms)) ms)
      ∧ (∀ attrNode, (messageStep env s.r (.object ms)).isMongoDBLogging = Bool.true →
          lookupKey "attr" ms = some attrNode →
          ev.fields = fieldsOf env (excludedKeys env s.r (.object ms)) (nodeMembers attrNode)))
    ∧ fieldValue env .null = Value.null
    ∧ fieldValue env .true = Value.bool Bool.true
    ∧ fieldValue env .false = Value.bool Bool.false
    ∧ (∀ str, fieldValue env (.str str) = Value.str str)
    ∧ (∀ xs, fieldValue env (.array xs) = Value.array xs)
    ∧ (∀ members, fieldValue env (.object members) = Value.object members)
    ∧ (∀ lit i, strconvParseInt lit = some i → fieldValue env (.number lit) = Value.int64 i)
    ∧ (∀ lit f, strconvParseInt lit = none → env.parseFloat lit = some f →
        fieldValue env (.number lit) = Value.float64 f)
    ∧ (∀ lit, strconvParseInt lit = none → env.parseFloat lit = none →
        fieldValue env (.number lit) = Value.str lit)
    ∧ fieldValue env (.number "42") = Value.int64 42
    ∧ (∀ f, env.parseFloat "3.5" = some f →
        fieldValue env (.number "3.5") = Value.float64 f) := by
  refine ⟨?_, rfl, rfl, rfl, fun _ => rfl, fun _ => rfl, fun _ => rfl, ?_, ?_, ?_, ?_, ?_⟩
  · obtain ⟨ev, hlog, hlevel, hf⟩ := processLineJson_fields env s b ms hparse
    refine ⟨ev, hlog, hlevel, ?_, hf, ?_, ?_⟩
    · intro hen
      rw [hlog, logged_enabled ev (by rw [hlevel]; exact hen)]
    · intro h
      rw [hf]
      rcases h with h | h
      · simp [emissionRoot, unwrapAttr, h, nodeMembers]
      · simp [emissionRoot, unwrapAttr, nodeGet, nodeMembers, h]
    · intro attrNode hm ha
      rw [hf]
      simp [emissionRoot, unwrapAttr, nodeGet, nodeMembers, hm, ha]
  · intro lit i h
    simp [fieldValue, h]
  · intro lit f h hf
    simp [fieldValue, h, hf]
  · intro lit h hf
    simp [fieldValue, h, hf]
  · have h : strconvParseInt "42" = some 42 := by decide
    simp [fieldValue, h]
  · intro f hf
    have h : strconvParseInt "3.5" = none := by decide
    simp [fieldValue, h, hf]

/-- C14 amended, on the record `{"count":42,"ratio":3.5}`. -/
theorem json_generic_emission_witness :
    ∃ ev, (processLineJson refEnv initState "\x7b\"count\":42,\"ratio\":3.5\x7d").1.log
        = initState.log ++ [ev]
      ∧ ev.fields = [("count", Value.int64 42), ("ratio", Value.float64 ⟨0x400C000000000000⟩)] :=
  match (json_generic_emission refEnv initState "\x7b\"count\":42,\"ratio\":3.5\x7d"
      [("count", .number "42"), ("ratio", .number "3.5")] (by rfl)).1 with
  | ⟨ev, _, _, hlog, hf, _, _⟩ => ⟨ev, hlog (by decide), hf.trans (by rfl)⟩

/-- C17 fails on the code: for the MongoDB record of the specification, which
has no `attr` member, the keys `c`, `ctx` and `id` are folded into the message
and are emitted as fields as well. -/
theorem mongodb_prefix_keys_emitted :
    refEnv.sonicGet "\x7b\"s\":\"I\",\"c\":\"NETWORK\",\"ctx\":\"conn1\",\"id\":\"12345\",\"msg\":\"hello\"\x7d"
      = .ok (.object [("s", .str "I"), ("c", .str "NETWORK"), ("ctx", .str "conn1"),
          ("id", .str "12345"), ("msg", .str "hello")])
    ∧ (processLineJson refEnv initState "\x7b\"s\":\"I\",\"c\":\"NETWORK\",\"ctx\":\"conn1\",\"id\":\"12345\",\"msg\":\"hello\"\x7d").1.log
      = [⟨Time.zero, InfoLevel, "[NETWORK|conn1|12345] hello",
          [("c", Value.str "NETWORK"), ("ctx", Value.str "conn1"),
           ("id", Value.str "12345")]⟩] := by
  refine ⟨by rfl, by rfl⟩

/-! ## The payload unwrap -/

theorem findMember_name_mem (names : List String) (ms : List (String × Node)) (n : String)
    (v : Node) (h : findMember names ms = (n, some v)) : n ∈ names := by
  induction ms with
  | nil => simp [findMember] at h
  | cons m rest ih =>
    obtain ⟨key, child⟩ := m
    simp only [findMember, matchName_eq] at h
    cases hk : names.contains key with
    | true =>
      simp only [hk, ↓reduceIte, Prod.mk.injEq] at h
      rw [← h.1]
      simpa using hk
    | false =>
      simp only [hk, Bool.false_eq_true, ↓reduceIte] at h
      exact ih h

theorem findWithAnyName_name_mem (node : Node) (names : List String) (n : String) (v : Node)
    (h : findWithAnyName node names = (n, some v)) : n ∈ names :=
  findMember_name_mem names (nodeMembers node) n v h

theorem resolveLevel_mongo_keys (env : Env) (root : Node)
    (h : (resolveLevel env root).2.1 = Bool.true) : (resolveLevel env root).2.2 = ["s"] := by
  unfold resolveLevel at h ⊢
  rcases hfl : findWithAnyName root ["level", "lvl", "severity"] with ⟨n, _ | v⟩
  · rw [hfl] at h
    simp only at h ⊢
    rcases hfs : findWithAnyName root ["s"] with ⟨n2, _ | v2⟩
    · rw [hfs] at h; simp at h
    · have hn2 : n2 = "s" := by simpa using findWithAnyName_name_mem root ["s"] n2 v2 hfs
      rw [hfs] at h
      simp only at h ⊢
      cases hs : nodeString v2 with
      | none => rw [hs] at h; simp at h
      | some str =>
        rw [hs] at h
        simp only at h ⊢
        by_cases hp : (parseMongoDBLevel str).2 = Bool.true
        · simp [hp, hn2]
        · simp [hp] at h
  · rw [hfl] at h
    simp only at h
    cases hs : nodeString v with
    | none => rw [hs] at h; simp at h
    | some str => rw [hs] at h; simp at h

theorem resolveLevel_mongo_enabled (env : Env) (root : Node)
    (h : (resolveLevel env root).2.1 = Bool.true) :
    withLevelEnabled (resolveLevel env root).1 = Bool.true := by
  unfold resolveLevel at h ⊢
  rcases hfl : findWithAnyName root ["level", "lvl", "severity"] with ⟨n, _ | v⟩
  · rw [hfl] at h
    simp only at h ⊢
    rcases hfs : findWithAnyName root ["s"] with ⟨n2, _ | v2⟩
    · rw [hfs] at h; simp at h
    · rw [hfs] at h
      simp only at h ⊢
      cases hs : nodeString v2 with
      | none => rw [hs] at h; simp at h
      | some str =>
        rw [hs] at h
        simp only at h ⊢
        by_cases hp : (parseMongoDBLevel str).2 = Bool.true
        · simp only [hp, ↓reduceIte]
          exact mongoLevel_enabled str hp
        · simp [hp] at h
  · rw [hfl] at h
    simp only at h
    cases hs : nodeString v with
    | none => rw [hs] at h; simp at h
    | some str => rw [hs] at h; simp at h

theorem resolveMessage_mongo_true (r : Relogger) (root : Node) (mongo : Bool)
    (ig : List String) (h : (resolveMessage r root mongo ig).isMongoDBLogging = Bool.true) :
    mongo = Bool.true := by
  cases mongo with
  | true => rfl
  | false =>
    unfold resolveMessage at h
    rcases hfm : findWithAnyName root ["message", "msg"] with ⟨name, _ | node⟩
    · rw [hfm] at h; simp at h
    · rw [hfm] at h
      cases hn : nodeString node with
      | none => simp [hn] at h
      | some str => simp [hn] at h

theorem fieldsOf_mem (env : Env) (excluded : List String) (members : List (String × Node))
    (f : String × Value) (hf : f ∈ fieldsOf env excluded members) :
    excluded.contains f.1 = Bool.false
    ∧ ∃ node, (f.1, node) ∈ members ∧ f.2 = fieldValue env node := by
  simp only [fieldsOf, List.mem_map, List.mem_filter] at hf
  obtain ⟨m, ⟨hm, hex⟩, rfl⟩ := hf
  exact ⟨by simpa using hex, m.2, hm, rfl⟩

/-- C20: for a JSON object record in MongoDB mode whose `attr` member is an
object, the emitted fields are exactly the members of `attr`, in document
order, whose key is none of the names excluded on the outer object (`s`, the
matched message key, the matched timestamp key) nor the stacktrace key
matched inside `attr`; a member of `attr` named `s` or like the matched
message key is dropped, and every field comes from a member of `attr`. -/
theorem attr_fields_exclusion (env : Env) (s : State) (b : String)
    (ms attrMs : List (String × Node))
    (hparse : env.sonicGet (jsonInput s b) = .ok (.object ms))
    (hmongo : (messageStep env s.r (.object ms)).isMongoDBLogging = Bool.true)
    (hattr : lookupKey "attr" ms = some (.object attrMs)) :
    ∃ ev, (processLineJson env s b).1.log = s.log ++ [ev]
      ∧ ev.fields = fieldsOf env
          (["s"] ++ matchedMessageKey (.object ms) ++ matchedTimestampKey env (.object ms)
            ++ matchedStacktraceKey (.object attrMs)) attrMs
      ∧ (∀ f ∈ ev.fields, f.1 ≠ "s")
      ∧ (∀ k ∈ matchedMessageKey (.object ms), ∀ f ∈ ev.fields, f.1 ≠ k)
      ∧ (∀ f ∈ ev.fields, ∃ node, (f.1, node) ∈ attrMs ∧ f.2 = fieldValue env node) := by
  obtain ⟨ev, hlog0, hlevel, hf⟩ := processLineJson_fields env s b ms hparse
  have hlv : (resolveLevel env (.object ms)).2.2 = ["s"] :=
    resolveLevel_mongo_keys env _ (resolveMessage_mongo_true _ _ _ _ hmongo)
  have hlog : (processLineJson env s b).1.log = s.log ++ [ev] := by
    rw [hlog0, logged_enabled ev]
    rw [hlevel]
    exact resolveLevel_mongo_enabled env _ (resolveMessage_mongo_true _ _ _ _ hmongo)
  have hroot : emissionRoot env s.r (.object ms) = .object attrMs := by
    simp [emissionRoot, unwrapAttr, hmongo, nodeGet, nodeMembers, hattr]
  have hf2 : ev.fields = fieldsOf env
      (["s"] ++ matchedMessageKey (.object ms) ++ matchedTimestampKey env (.object ms)
        ++ matchedStacktraceKey (.object attrMs)) attrMs := by
    rw [hf, hroot]
    simp only [excludedKeys, hlv, hroot, nodeMembers]
  refine ⟨ev, hlog, hf2, ?_, ?_, ?_⟩
  · intro f hfm hs
    rw [hf2] at hfm
    have h := (fieldsOf_mem env _ _ f hfm).1
    rw [hs] at h
    simp at h
  · intro k hk f hfm hfk
    rw [hf2] at hfm
    have h := (fieldsOf_mem env _ _ f hfm).1
    rw [hfk] at h
    simp [hk] at h
  · intro f hfm
    rw [hf2] at hfm
    exact (fieldsOf_mem env _ _ f hfm).2

/-- C20 on a record whose `attr` holds `a` and `msg`: only `a` is emitted. -/
theorem attr_fields_exclusion_witness :
    ∃ ev, (processLineJson refEnv initState "\x7b\"s\":\"I\",\"c\":\"N\",\"ctx\":\"x\",\"id\":\"1\",\"msg\":\"hello\",\"attr\":\x7b\"a\":1,\"msg\":\"inner\"\x7d\x7d").1.log = initState.log ++ [ev]
      ∧ ev.fields = [("a", Value.int64 1)] :=
  match attr_fields_exclusion refEnv initState "\x7b\"s\":\"I\",\"c\":\"N\",\"ctx\":\"x\",\"id\":\"1\",\"msg\":\"hello\",\"attr\":\x7b\"a\":1,\"msg\":\"inner\"\x7d\x7d"
      [("s", .str "I"), ("c", .str "N"), ("ctx", .str "x"), ("id", .str "1"),
        ("msg", .str "hello"), ("attr", .object [("a", .number "1"), ("msg", .str "inner")])]
      [("a", .number "1"), ("msg", .str "inner")] (by rfl) (by decide) (by rfl) with
  | ⟨ev, hlog, hf, _, _, _⟩ => ⟨ev, hlog, hf.trans (by rfl)⟩

/-! ## Cancelling MongoDB mode -/

theorem resolveLevel_mongo (env : Env) (ms : List (String × Node)) (code : String)
    (hnolevel : (findWithAnyName (.object ms) ["level", "lvl", "severity"]).2 = none)
    (hs : lookupKey "s" ms = some (.str code))
    (hcode : code ∈ ["F", "E", "W", "I", "D1", "D2", "D3", "D4", "D5"]) :
    resolveLevel env (.object ms) = ((parseMongoDBLevel code).1, Bool.true, ["s"]) := by
  have hpm := parseMongoDBLevel_known code hcode
  rcases hfl : findWithAnyName (.object ms) ["level", "lvl", "severity"] with ⟨n, _ | v⟩
  · simp [resolveLevel, hfl, findWithAnyName_single, hs, nodeString, hpm]
  · rw [hfl] at hnolevel; simp at hnolevel

theorem resolveMessage_cancelled (r : Relogger) (ms : List (String × Node))
    (mk : String) (mnode : Node) (m : String)
    (hmsg : findWithAnyName (.object ms) ["message", "msg"] = (mk, some mnode))
    (hm : nodeString mnode = some m)
    (hmissing : lookupKey "c" ms = none ∨ lookupKey "ctx" ms = none ∨ lookupKey "id" ms = none) :
    resolveMessage r (.object ms) Bool.true ["s"]
      = { r := r, message := m, isMongoDBLogging := Bool.false, ignoreNodes := ["s", mk] } := by
  simp only [resolveMessage, hmsg, hm, ↓reduceIte, mongoMessage, findWithAnyName_single]
  split
  · rename_i c1 c2 c3 h1 h2 h3
    rcases hmissing with h | h | h
    · rw [h] at h1; simp at h1
    · rw [h] at h2; simp at h2
    · rw [h] at h3; simp at h3
  · simp

theorem unwrapAttr_false (root : Node) : unwrapAttr root Bool.false = root := by
  simp [unwrapAttr]

theorem resolveStacktrace_message_indep (node : Node) (message : String)
    (ig ig2 : List String) :
    (resolveStacktrace node message ig).1 = (resolveStacktrace node message ig2).1 := by
  unfold resolveStacktrace
  rcases findWithAnyName node ["stacktrace", "stack_trace", "stack"] with ⟨name, _ | st⟩
  · rfl
  · cases st <;> rfl

theorem matchedTimestampKey_mem (env : Env) (root : Node) :
    ∀ k ∈ matchedTimestampKey env root, k ∈ timestampNames := by
  intro k hk
  unfold matchedTimestampKey at hk
  by_cases hp : (parseTimestampNode env (findWithAnyName root timestampNames).2).2 = Bool.true
  · rw [if_pos hp] at hk
    rcases hf : findWithAnyName root timestampNames with ⟨n, _ | v⟩
    · rw [hf] at hp; simp [parseTimestampNode] at hp
    · rw [hf] at hk
      simp only [List.mem_singleton] at hk
      rw [hk]
      exact findWithAnyName_name_mem root timestampNames n v hf
  · rw [if_neg hp] at hk; simp at hk

theorem matchedStacktraceKey_mem (node : Node) :
    ∀ k ∈ matchedStacktraceKey node, k ∈ stacktraceNames := by
  intro k hk
  unfold matchedStacktraceKey at hk
  rcases hf : findWithAnyName node stacktraceNames with ⟨n, _ | v⟩
  · rw [hf] at hk; simp at hk
  · rw [hf] at hk
    simp only [List.mem_singleton] at hk
    rw [hk]
    exact findWithAnyName_name_mem node stacktraceNames n v hf

theorem fieldsOf_mem_of (env : Env) (excluded : List String) (members : List (String × Node))
    (k : String) (node : Node) (hm : (k, node) ∈ members) (hk : k ∉ excluded) :
    (k, fieldValue env node) ∈ fieldsOf env excluded members := by
  simp only [fieldsOf, List.mem_map, List.mem_filter]
  exact ⟨(k, node), ⟨hm, by simpa using hk⟩, rfl⟩

/-- C16 as stated fails: the record `{"s":"I","attr":{"a":1}}` has a recognized
`s`, no level key and no `c`, `ctx` or `id`, yet MongoDB mode stays on: `attr`
is unwrapped and the only field is its member `a`, not `attr` itself. -/
theorem mongodb_cancel_counterexample :
    refEnv.sonicGet "\x7b\"s\":\"I\",\"attr\":\x7b\"a\":1\x7d\x7d"
      = .ok (.object [("s", .str "I"), ("attr", .object [("a", .number "1")])])
    ∧ lookupKey "c" [("s", Node.str "I"), ("attr", Node.object [("a", .number "1")])] = none
    ∧ (processLineJson refEnv initState "\x7b\"s\":\"I\",\"attr\":\x7b\"a\":1\x7d\x7d").1.log
      = [⟨Time.zero, InfoLevel, "", [("a", Value.int64 1)]⟩] := by
  refine ⟨by rfl, by rfl, by rfl⟩

/-- C16 amended: for a JSON object record without a level, lvl or severity key,
whose `s` is a recognized severity code, whose matched message key holds a
value that casts to a string, and in which at least one of `c`, `ctx`, `id`
is missing, MongoDB mode is off for the rest of the record: the padding
widths are unchanged, `parsedTime` only depends on the top-level timestamp
key, the message is the bare message (with the stacktrace of the record
itself, if any), and the fields are the members of the record whose key is
not excluded, among them `attr` and whichever of `c`, `ctx`, `id` it has. -/
theorem mongodb_mode_cancelled (env : Env) (s : State) (b : String)
    (ms : List (String × Node)) (code mk : String) (mnode : Node) (m : String)
    (hparse : env.sonicGet (jsonInput s b) = .ok (.object ms))
    (hnolevel : (findWithAnyName (.object ms) ["level", "lvl", "severity"]).2 = none)
    (hs : lookupKey "s" ms = some (.str code))
    (hcode : code ∈ ["F", "E", "W", "I", "D1", "D2", "D3", "D4", "D5"])
    (hmsg : findWithAnyName (.object ms) ["message", "msg"] = (mk, some mnode))
    (hm : nodeString mnode = some m)
    (hmissing : lookupKey "c" ms = none ∨ lookupKey "ctx" ms = none ∨ lookupKey "id" ms = none) :
    (processLineJson env s b).1.r = { s.r with buf := "" }
    ∧ (processLineJson env s b).1.parsedTime
        = (if (parseTimestampNode env (findWithAnyName (.object ms) timestampNames).2).2 then
            (parseTimestampNode env (findWithAnyName (.object ms) timestampNames).2).1
          else s.parsedTime)
    ∧ ∃ ev, (processLineJson env s b).1.log = s.log ++ [ev]
      ∧ ev.message = (resolveStacktrace (.object ms) m []).1
      ∧ ((findWithAnyName (.object ms) stacktraceNames).2 = none → ev.message = m)
      ∧ ev.fields = fieldsOf env
          (["s", mk] ++ matchedTimestampKey env (.object ms)
            ++ matchedStacktraceKey (.object ms)) ms
      ∧ (∀ k ∈ ["attr", "c", "ctx", "id"], ∀ node, (k, node) ∈ ms →
          (k, fieldValue env node) ∈ ev.fields) := by
  have hlv := resolveLevel_mongo env ms code hnolevel hs hcode
  have hmr := resolveMessage_cancelled { s.r with buf := "" } ms mk mnode m hmsg hm hmissing
  have hmk : mk ∈ ["message", "msg"] := findWithAnyName_name_mem _ _ mk mnode hmsg
  rw [processLineJson_object env s b ms hparse]
  have hen : withLevelEnabled
      (objectEvent env { s with r := { s.r with buf := "" } } (.object ms)).level
      = Bool.true := by
    show withLevelEnabled (resolveLevel env (.object ms)).1 = Bool.true
    rw [hlv]
    exact mongoLevel_enabled code (parseMongoDBLevel_known code hcode)
  have hfields : emitFields env
      (resolveStacktrace (.object ms) m
        (resolveTimestamp env (.object ms) Bool.false s.parsedTime ["s", mk]).2).2 ms
      = fieldsOf env (["s", mk] ++ matchedTimestampKey env (.object ms)
          ++ matchedStacktraceKey (.object ms)) ms := by
    rw [emitFields_eq_fieldsOf, resolveStacktrace_ignore, resolveTimestamp_ignore]
  refine ⟨?_, ?_, objectEvent env { s with r := { s.r with buf := "" } } (.object ms),
    ?_, ?_, ?_, ?_, ?_⟩
  · simp only [processObject, hlv, hmr, State.emit]
  · simp only [processObject, hlv, hmr, State.emit, resolveTimestamp, timestampNames,
      Bool.false_eq_true, ↓reduceIte]
    split_ifs <;> rfl
  · show (processObject env _ _).log = _
    rw [processObject_log_eq, logged_enabled _ hen]
  · simp only [objectEvent, hlv, hmr, unwrapAttr_false]
    exact resolveStacktrace_message_indep _ _ _ _
  · intro hst
    simp only [objectEvent, hlv, hmr, unwrapAttr_false]
    rcases hfs : findWithAnyName (.object ms) stacktraceNames with ⟨n, _ | v⟩
    · simp only [stacktraceNames] at hfs
      simp [resolveStacktrace, hfs]
    · rw [hfs] at hst; simp at hst
  · simp only [objectEvent, hlv, hmr, unwrapAttr_false, nodeMembers]
    exact hfields
  · intro k hk node hmem
    simp only [objectEvent, hlv, hmr, unwrapAttr_false, nodeMembers]
    rw [hfields]
    apply fieldsOf_mem_of env _ ms k node hmem
    intro hex
    simp only [List.mem_append, List.mem_cons, List.mem_singleton, List.not_mem_nil,
      or_false] at hex hmk hk
    have ht := matchedTimestampKey_mem env (.object ms) k
    have hst := matchedStacktraceKey_mem (.object ms) k
    simp only [timestampNames, stacktraceNames, List.mem_cons, List.mem_singleton,
      List.not_mem_nil, or_false] at ht hst
    rcases hk with hk | hk | hk | hk <;> subst hk
    all_goals
      rcases hex with (hex | hex) | hex
      · rcases hex with hex | hex
        · exact absurd hex (by decide)
        · rcases hmk with h | h <;> rw [h] at hex <;> exact absurd hex (by decide)
      · have := ht hex
        revert this
        decide
      · have := hst hex
        revert this
        decide

/-- C16 amended, on the record `{"s":"I","msg":"hello","attr":{"a":1}}`: the
message is `hello` and `attr` is emitted as a field. -/
theorem mongodb_mode_cancelled_witness :
    ∃ ev, (processLineJson refEnv initState "\x7b\"s\":\"I\",\"msg\":\"hello\",\"attr\":\x7b\"a\":1\x7d\x7d").1.log = initState.log ++ [ev]
      ∧ ev.message = "hello"
      ∧ ("attr", fieldValue refEnv (.object [("a", .number "1")])) ∈ ev.fields :=
  match (mongodb_mode_cancelled refEnv initState "\x7b\"s\":\"I\",\"msg\":\"hello\",\"attr\":\x7b\"a\":1\x7d\x7d"
      [("s", .str "I"), ("msg", .str "hello"), ("attr", .object [("a", .number "1")])]
      "I" "msg" (.str "hello") "hello"
      (by rfl) (by rfl) (by rfl) (by decide) (by rfl) (by rfl) (Or.inl (by rfl))).2.2 with
  | ⟨ev, hlog, _, hnostack, _, hmem⟩ =>
    ⟨ev, hlog, hnostack (by rfl), hmem "attr" (by decide) _ (by simp)⟩

/-! ## One event per line -/

theorem fallbackStages_log (env : Env) (s : State) (b : String) :
    ∃ ev, ev.level = (match env.logfmtDecode b with
          | some (p :: ps) => (scanPairs env (p :: ps)).level
          | _ => NoLevel)
      ∧ (fallbackStages env s b).log = s.log ++ logged ev := by
  cases hdec : env.logfmtDecode b with
  | none =>
    refine ⟨⟨s.parsedTime, NoLevel, b, []⟩, rfl, ?_⟩
    simp [fallbackStages, processLineLogFmt, hdec, State.emit]
  | some pairs =>
    cases pairs with
    | nil =>
      refine ⟨⟨Time.zero, NoLevel, b, []⟩, rfl, ?_⟩
      simp [fallbackStages, processLineLogFmt, hdec, State.emit, scanPairs]
    | cons p ps =>
      refine ⟨logfmtEvent env (p :: ps), rfl, ?_⟩
      have h := processLineLogFmt_handled_eq env s b (p :: ps) hdec (by simp)
      simp [fallbackStages, h]

theorem lineLevel_fallback (env : Env) (s : State) (b : String)
    (h : (processLineJson env s b).2 = Bool.false) :
    lineLevel env s b = (match env.logfmtDecode b with
        | some (p :: ps) => (scanPairs env (p :: ps)).level
        | _ => NoLevel) := by
  unfold lineLevel
  cases hg : env.sonicGet (jsonInput s b) with
  | error err => rfl
  | ok root =>
    cases root with
    | object ms =>
      rw [processLineJson_object env s b ms hg] at h
      simp at h
    | _ => rfl

/-- The event a line yields when the JSON stage does not buffer it: its level is
`lineLevel`, and the logger receives it or drops it. -/
theorem processLine_built_event (env : Env) (s : State) (b : String)
    (hi : jsonIncomplete env s b = Bool.false) :
    ∃ ev, ev.level = lineLevel env s b ∧ (processLine env s b).log = s.log ++ logged ev := by
  cases hj : (processLineJson env s b).2 with
  | false =>
    rw [processLine_fallback env s b hj, lineLevel_fallback env s b hj]
    exact fallbackStages_log env _ b
  | true =>
    unfold jsonIncomplete at hi
    cases hg : env.sonicGet (jsonInput s b) with
    | error err =>
      rw [hg] at hi
      have hi2 : isSonicEOFErr err = Bool.false := hi
      rw [processLineJson_malformed env s b err hg hi2] at hj
      simp at hj
    | ok root =>
      cases root with
      | object ms =>
        rw [processLine_object env s b ms hg]
        have hl : lineLevel env s b = (resolveLevel env (.object ms)).1 := by
          unfold lineLevel; rw [hg]
        rw [hl]
        exact processObject_log env _ _
      | _ =>
        rw [processLineJson_nonobject env s b _ hg (by simp [nodeType])] at hj
        simp at hj

/-- C4 as stated fails: `{"level":"disabled","msg":"m"}` is a complete JSON object,
not an incomplete document, yet `processLine` emits no event for it, because
`log.WithLevel` returns nil for the level `disabled`. -/
theorem event_count_counterexample :
    refEnv.sonicGet (jsonInput initState "\x7b\"level\":\"disabled\",\"msg\":\"m\"\x7d")
      = .ok (.object [("level", .str "disabled"), ("msg", .str "m")])
    ∧ jsonIncomplete refEnv initState "\x7b\"level\":\"disabled\",\"msg\":\"m\"\x7d" = Bool.false
    ∧ (processLine refEnv initState "\x7b\"level\":\"disabled\",\"msg\":\"m\"\x7d").log = initState.log
    ∧ ¬ ∃ ev, (processLine refEnv initState "\x7b\"level\":\"disabled\",\"msg\":\"m\"\x7d").log = initState.log ++ [ev] := by
  have hlog : (processLine refEnv initState "\x7b\"level\":\"disabled\",\"msg\":\"m\"\x7d").log = initState.log := by rfl
  refine ⟨by rfl, by rfl, hlog, ?_⟩
  rintro ⟨ev, hev⟩
  rw [hlog] at hev
  have := congrArg List.length hev
  simp at this

/-- C4 amended: `processLine` emits at most one event per line.  It emits none
when the JSON stage reports an incomplete document (the line is then appended
to the pending buffer).  In every other case it builds exactly one event (for
the JSON object, the logfmt record or the raw line), which is emitted when the
logger emits its level and dropped when it does not (level `disabled`, or a
level below trace): no event is emitted exactly when the document is
incomplete or the level of the line is dropped. -/
theorem processLine_event_count (env : Env) (s : State) (b : String) :
    (jsonIncomplete env s b = Bool.true →
      (processLine env s b).log = s.log ∧ (processLine env s b).r.buf = s.r.buf ++ b)
    ∧ (jsonIncomplete env s b = Bool.false →
      ∃ ev, ev.level = lineLevel env s b ∧ (processLine env s b).log = s.log ++ logged ev)
    ∧ (jsonIncomplete env s b = Bool.false →
      withLevelEnabled (lineLevel env s b) = Bool.true →
      ∃ ev, (processLine env s b).log = s.log ++ [ev])
    ∧ ((processLine env s b).log = s.log
      ↔ (jsonIncomplete env s b = Bool.true
          ∨ withLevelEnabled (lineLevel env s b) = Bool.false))
    ∧ ((processLine env s b).log = s.log
      ∨ ∃ ev, (processLine env s b).log = s.log ++ [ev]) := by
  have hinc : jsonIncomplete env s b = Bool.true →
      (processLine env s b).log = s.log ∧ (processLine env s b).r.buf = s.r.buf ++ b := by
    intro hi
    unfold jsonIncomplete at hi
    cases hg : env.sonicGet (jsonInput s b) with
    | error err =>
      rw [hg] at hi
      have hi2 : isSonicEOFErr err = Bool.true := hi
      rw [processLine_incomplete env s b err hg hi2]
      exact ⟨rfl, rfl⟩
    | ok root => rw [hg] at hi; simp at hi
  refine ⟨hinc, processLine_built_event env s b, ?_, ?_, ?_⟩
  · intro hi hen
    obtain ⟨ev, hlevel, hlog⟩ := processLine_built_event env s b hi
    exact ⟨ev, by rw [hlog, logged_enabled ev (by rw [hlevel]; exact hen)]⟩
  · constructor
    · intro hlog
      cases hi : jsonIncomplete env s b with
      | true => exact Or.inl rfl
      | false =>
        right
        obtain ⟨ev, hlevel, hev⟩ := processLine_built_event env s b hi
        cases hen : withLevelEnabled (lineLevel env s b) with
        | false => rfl
        | true =>
          rw [hlog, logged_enabled ev (by rw [hlevel]; exact hen)] at hev
          have := congrArg List.length hev
          simp at this
    · intro h
      rcases h with h | h
      · exact (hinc h).1
      · cases hi : jsonIncomplete env s b with
        | true => exact (hinc hi).1
        | false =>
          obtain ⟨ev, hlevel, hev⟩ := processLine_built_event env s b hi
          rw [hev, logged_disabled ev (by rw [hlevel]; exact h)]
          simp
  · cases hi : jsonIncomplete env s b with
    | true => exact Or.inl (hinc hi).1
    | false =>
      obtain ⟨ev, _, hev⟩ := processLine_built_event env s b hi
      rw [hev]
      exact append_logged_cases s.log ev

/-- C4 amended, on the record `{"level":"warn","lvl":"info"}`: a complete object
of level warn, so exactly one event is emitted. -/
theorem processLine_event_count_witness :
    ∃ ev, (processLine refEnv initState
        "\x7b\"level\":\"warn\",\"lvl\":\"info\"\x7d").log = initState.log ++ [ev] :=
  (processLine_event_count refEnv initState
    "\x7b\"level\":\"warn\",\"lvl\":\"info\"\x7d").2.2.1 (by rfl) (by decide)

end Relog
